import Mathlib

/-!
Verification of the SigilMarkets artifact-minting pipeline
(`src/SigilMarkets/sigils/PositionSigilMint.tsx`,
`src/SigilMarkets/sigils/ResolutionSigilMint.tsx`,
`src/SigilMarkets/sigils/InhaleGlyphGate.tsx`) against its
natural-language specification.

JavaScript runtime values are embedded as the inductive tree `JVal`
(objects are ordered association lists, mirroring JS insertion order;
numbers are modelled as integers — every number the pipeline puts into a
payload is an integer, and large quantities travel as decimal strings by
design).  Machine integers use `Nat` with explicit `% 2^32` masking.
-/

set_option maxRecDepth 40000

namespace Verahai

/- ────────────────────────────────────────────────────────────
   Basic character/string helpers
   ──────────────────────────────────────────────────────────── -/

/-- Decimal digit character for `n < 10`. -/
def digitChar (n : Nat) : Char :=
  Char.ofNat (48 + n)

/-- Lowercase hexadecimal digit character for `n < 16`
    (mirrors the lowercase hex the JS code works with). -/
def hexChar (n : Nat) : Char :=
  if n < 10 then Char.ofNat (48 + n) else Char.ofNat (87 + n)

/-- Fuel-indexed digit emitter (structural recursion so that proofs may
    evaluate it); `natDec` supplies ample fuel. -/
def natDecAux : Nat → Nat → List Char
  | 0, _ => []
  | fuel + 1, n =>
    if n < 10 then [digitChar n]
    else natDecAux fuel (n / 10) ++ [digitChar (n % 10)]

/-- Base-10 digit list of a natural number (most significant first);
    model of JS `BigInt.prototype.toString(10)` / integer `String(n)`. -/
def natDec (n : Nat) : List Char :=
  natDecAux (n + 1) n

theorem natDecAux_irrel (f1 : Nat) : ∀ f2 n, n < f1 → n < f2 → natDecAux f1 n = natDecAux f2 n := by
  induction f1 with
  | zero => omega
  | succ g ih =>
    intro f2 n h1 h2
    match f2, h2 with
    | f2' + 1, _ =>
      rw [natDecAux, natDecAux]
      by_cases h10 : n < 10
      · simp [h10]
      · rw [if_neg h10, if_neg h10]
        have hd : n / 10 < n := Nat.div_lt_self (by omega) (by omega)
        rw [ih f2' (n / 10) (by omega) (by omega)]

/-- The defining recurrence of `natDec`. -/
theorem natDec_eq (n : Nat) :
    natDec n = if n < 10 then [digitChar n] else natDec (n / 10) ++ [digitChar (n % 10)] := by
  rw [natDec, natDecAux]
  by_cases h10 : n < 10
  · simp [h10]
  · rw [if_neg h10, if_neg h10]
    have hd : n / 10 < n := Nat.div_lt_self (by omega) (by omega)
    rw [natDec, natDecAux_irrel n (n / 10 + 1) (n / 10) hd (by omega)]

/-- Base-10 rendering of an integer-valued JS number / bigint. -/
def intDec (i : Int) : List Char :=
  if i < 0 then '-' :: natDec i.natAbs else natDec i.toNat

def isDigitCh (c : Char) : Bool :=
  48 ≤ c.toNat && c.toNat ≤ 57

/-- Numeric value of a digit list (fold, most significant first). -/
def digitsToNat (ds : List Char) : Nat :=
  ds.foldl (fun a c => a * 10 + (c.toNat - 48)) 0

theorem natDec_ne_nil (n : Nat) : natDec n ≠ [] := by
  rw [natDec_eq]
  split <;> simp

theorem digitChar_toNat (n : Nat) (h : n < 10) : (digitChar n).toNat = 48 + n := by
  interval_cases n <;> decide

theorem isDigitCh_digitChar (n : Nat) (h : n < 10) : isDigitCh (digitChar n) = true := by
  interval_cases n <;> decide

theorem natDec_digits (n : Nat) : ∀ c ∈ natDec n, isDigitCh c = true := by
  rw [natDec_eq]
  split
  · rename_i h
    intro c hc
    simp only [List.mem_singleton] at hc
    subst hc
    exact isDigitCh_digitChar n h
  · rename_i h
    intro c hc
    simp only [List.mem_append, List.mem_singleton] at hc
    rcases hc with hc | hc
    · exact natDec_digits (n / 10) c hc
    · subst hc
      exact isDigitCh_digitChar (n % 10) (Nat.mod_lt _ (by omega))
decreasing_by exact Nat.div_lt_self (by omega) (by omega)

theorem digitsToNat_append (a b : List Char) :
    digitsToNat (a ++ b) = b.foldl (fun a c => a * 10 + (c.toNat - 48)) (digitsToNat a) := by
  simp [digitsToNat, List.foldl_append]

/-- Reading back the decimal rendering recovers the number. -/
theorem digitsToNat_natDec (n : Nat) : digitsToNat (natDec n) = n := by
  rw [natDec_eq]
  split
  · rename_i h
    simp [digitsToNat, digitChar_toNat n h]
  · rename_i h
    rw [digitsToNat_append, digitsToNat_natDec (n / 10)]
    simp only [List.foldl_cons, List.foldl_nil]
    rw [digitChar_toNat (n % 10) (Nat.mod_lt _ (by omega))]
    omega
decreasing_by exact Nat.div_lt_self (by omega) (by omega)

/- ────────────────────────────────────────────────────────────
   JavaScript runtime values (shallow embedding)

   `JVal` models the `unknown` values flowing through the minting
   pipeline: JS objects are ordered association lists (insertion
   order), numbers are modelled as integers (every number the
   pipeline embeds is integer-valued; big quantities travel as
   decimal strings), `undefined` is JS `undefined`.
   ──────────────────────────────────────────────────────────── -/

inductive JVal where
  | null : JVal
  | undefined : JVal
  | bool (b : Bool) : JVal
  | num (n : Int) : JVal
  | str (s : String) : JVal
  | arr (xs : List JVal) : JVal
  | obj (kvs : List (String × JVal)) : JVal

/-- Property lookup `v[k]` on an object member list: first binding wins
    (JS objects cannot hold duplicate keys, so this is exact). -/
def objLookup (kvs : List (String × JVal)) (k : String) : Option JVal :=
  match kvs with
  | [] => none
  | (k', v) :: r => if k' = k then some v else objLookup r k

/-- Escaping of one character inside a JSON string literal, as
    performed by `JSON.stringify` (quote, backslash, control chars). -/
def escChar (c : Char) : List Char :=
  if c = '"' then ['\\', '"']
  else if c = '\\' then ['\\', '\\']
  else if c = '\x08' then ['\\', 'b']
  else if c = '\x09' then ['\\', 't']
  else if c = '\x0a' then ['\\', 'n']
  else if c = '\x0c' then ['\\', 'f']
  else if c = '\x0d' then ['\\', 'r']
  else if c.toNat < 32 then ['\\', 'u', '0', '0', hexChar (c.toNat / 16), hexChar (c.toNat % 16)]
  else [c]

def escString (s : List Char) : List Char :=
  (s.map escChar).flatten

/-- `JSON.stringify` of a string value. -/
def quoteStr (s : String) : List Char :=
  '"' :: escString s.data ++ ['"']

/-- Comma-join of rendered items (JSON member/element separator). -/
def joinComma : List (List Char) → List Char
  | [] => []
  | [x] => x
  | x :: y :: r => x ++ ',' :: joinComma (y :: r)

/- Model of `JSON.stringify`.  Returns `none` exactly where
    `JSON.stringify` returns `undefined` (top-level `undefined`);
    inside arrays `undefined` renders as `null` and inside objects the
    member is omitted, as in JS. -/
mutual

def stringifyVal : JVal → Option (List Char)
  | .null => some ('n' :: 'u' :: 'l' :: 'l' :: [])
  | .undefined => none
  | .bool b => some (if b then 't' :: 'r' :: 'u' :: 'e' :: [] else 'f' :: 'a' :: 'l' :: 's' :: 'e' :: [])
  | .num n => some (intDec n)
  | .str s => some (quoteStr s)
  | .arr xs => some ('[' :: joinComma (stringifyItems xs) ++ [']'])
  | .obj kvs => some ('{' :: joinComma (stringifyMembers kvs) ++ ['}'])

def stringifyItems : List JVal → List (List Char)
  | [] => []
  | x :: r => ((stringifyVal x).getD ('n' :: 'u' :: 'l' :: 'l' :: [])) :: stringifyItems r

def stringifyMembers : List (String × JVal) → List (List Char)
  | [] => []
  | (k, v) :: r =>
    match stringifyVal v with
    | none => stringifyMembers r
    | some sv => (quoteStr k ++ ':' :: sv) :: stringifyMembers r

end

/- `true` iff the value contains no `undefined` anywhere (the values the
    pipeline serializes are of this shape). -/
mutual

def noUndefV : JVal → Bool
  | .null => true
  | .undefined => false
  | .bool _ => true
  | .num _ => true
  | .str _ => true
  | .arr xs => noUndefL xs
  | .obj kvs => noUndefM kvs

def noUndefL : List JVal → Bool
  | [] => true
  | x :: r => noUndefV x && noUndefL r

def noUndefM : List (String × JVal) → Bool
  | [] => true
  | (_, v) :: r => noUndefV v && noUndefM r

end

/- `true` iff every object in the tree has pairwise-distinct keys
    (always the case for values originating from JS objects). -/
mutual

def nodupKeysV : JVal → Bool
  | .null => true
  | .undefined => true
  | .bool _ => true
  | .num _ => true
  | .str _ => true
  | .arr xs => nodupKeysL xs
  | .obj kvs => ((kvs.map Prod.fst).Nodup : Bool) && nodupKeysM kvs

def nodupKeysL : List JVal → Bool
  | [] => true
  | x :: r => nodupKeysV x && nodupKeysL r

def nodupKeysM : List (String × JVal) → Bool
  | [] => true
  | (_, v) :: r => nodupKeysV v && nodupKeysM r

end

/- ────────────────────────────────────────────────────────────
   Key sorting (the `Object.keys(v).sort((a, b) => a < b ? -1 : a > b ? 1 : 0)`
   of `toJsonValue` / `stableStringify`): ascending string order.
   Insertion sort is used as the model of `Array.prototype.sort`;
   on the duplicate-free key lists of JS objects the ascending sorted
   permutation is unique, so any correct sort is an exact model.
   ──────────────────────────────────────────────────────────── -/

/-- Lexicographic code-point comparison on character lists: the model of
    the JS string `<` used by the sort comparator. -/
def ltChars : List Char → List Char → Bool
  | [], [] => false
  | [], _ :: _ => true
  | _ :: _, [] => false
  | a :: as, b :: bs =>
    if a.toNat < b.toNat then true
    else if b.toNat < a.toNat then false
    else ltChars as bs

def ltStr (a b : String) : Bool :=
  ltChars a.data b.data

def insertByKey {α : Type} (p : String × α) : List (String × α) → List (String × α)
  | [] => [p]
  | q :: r => if ltStr p.1 q.1 then p :: q :: r else q :: insertByKey p r

def sortByKey {α : Type} (l : List (String × α)) : List (String × α) :=
  l.foldr insertByKey []

/- Model of `toJsonValue` (PositionSigilMint.tsx lines 117-127): the
    canonicalizer.  Primitives pass through, arrays recurse in order,
    objects recurse with keys sorted ascending, anything else becomes
    `String(v)` (for the modelled values: `undefined` → `"undefined"`).
    The source sorts the keys and then recurses; since the sort
    compares only keys, converting members first and then sorting is
    the same function (`sortByKey_map_comm` below). -/
mutual

def toJsonValue : JVal → JVal
  | .null => .null
  | .bool b => .bool b
  | .num n => .num n
  | .str s => .str s
  | .arr xs => .arr (toJsonItems xs)
  | .obj kvs => .obj (sortByKey (toJsonMembers kvs))
  | .undefined => .str "undefined"

def toJsonItems : List JVal → List JVal
  | [] => []
  | x :: r => toJsonValue x :: toJsonItems r

def toJsonMembers : List (String × JVal) → List (String × JVal)
  | [] => []
  | (k, v) :: r => (k, toJsonValue v) :: toJsonMembers r

end

/- Model of `stableStringify` (PositionSigilMint.tsx lines 129-138):
    hand-built canonical writer — no whitespace, `,` and `:` separators,
    object keys sorted ascending, strings quoted via `JSON.stringify`.
    (The `undefined` case is the line-135 fallback `JSON.stringify(String(v))`.) -/
mutual

def stableStringify : JVal → List Char
  | .null => 'n' :: 'u' :: 'l' :: 'l' :: []
  | .str s => quoteStr s
  | .num n => intDec n
  | .bool b => if b then 't' :: 'r' :: 'u' :: 'e' :: [] else 'f' :: 'a' :: 'l' :: 's' :: 'e' :: []
  | .arr xs => '[' :: joinComma (stableItems xs) ++ [']']
  | .obj kvs => '{' :: joinComma ((sortByKey (stableMembers kvs)).map (fun p => quoteStr p.1 ++ ':' :: p.2)) ++ ['}']
  | .undefined => quoteStr "undefined"

def stableItems : List JVal → List (List Char)
  | [] => []
  | x :: r => stableStringify x :: stableItems r

def stableMembers : List (String × JVal) → List (String × List Char)
  | [] => []
  | (k, v) :: r => (k, stableStringify v) :: stableMembers r

end

/- ────────────────────────────────────────────────────────────
   Model of `JSON.parse` (used on the extracted metadata text by
   `parseEmbeddedJson` in InhaleGlyphGate.tsx).  Recursion is
   fuel-indexed; `parseJson` supplies ample fuel.  Two deliberate
   modelling restrictions, matching the integer `num` model: number
   literals are parsed without fraction/exponent parts (the pipeline
   never emits them), and `\u` escapes denoting surrogate halves are
   rejected (Lean `Char` has no lone surrogates).
   ──────────────────────────────────────────────────────────── -/

def isWsChar (c : Char) : Bool :=
  c = ' ' || c = '\x09' || c = '\x0a' || c = '\x0d'

def skipWs : List Char → List Char
  | [] => []
  | c :: r => if isWsChar c then skipWs r else c :: r

def hexVal (c : Char) : Option Nat :=
  if 48 ≤ c.toNat ∧ c.toNat ≤ 57 then some (c.toNat - 48)
  else if 97 ≤ c.toNat ∧ c.toNat ≤ 102 then some (c.toNat - 87)
  else if 65 ≤ c.toNat ∧ c.toNat ≤ 70 then some (c.toNat - 55)
  else none

/-- Match a literal character sequence, returning the remainder. -/
def dropLit : List Char → List Char → Option (List Char)
  | [], cs => some cs
  | _ :: _, [] => none
  | l :: ls, c :: cs => if c = l then dropLit ls cs else none

/-- JSON string-literal body (after the opening quote), handling the
    escapes `JSON.parse` accepts; raw control characters are rejected. -/
def parseStringBody : List Char → Option (List Char × List Char)
  | [] => none
  | c :: cs =>
    if c = '"' then some ([], cs)
    else if c = '\\' then
      match cs with
      | [] => none
      | e :: cs2 =>
        if e = '"' then (parseStringBody cs2).map (fun p => ('"' :: p.1, p.2))
        else if e = '\\' then (parseStringBody cs2).map (fun p => ('\\' :: p.1, p.2))
        else if e = '/' then (parseStringBody cs2).map (fun p => ('/' :: p.1, p.2))
        else if e = 'b' then (parseStringBody cs2).map (fun p => ('\x08' :: p.1, p.2))
        else if e = 'f' then (parseStringBody cs2).map (fun p => ('\x0c' :: p.1, p.2))
        else if e = 'n' then (parseStringBody cs2).map (fun p => ('\x0a' :: p.1, p.2))
        else if e = 'r' then (parseStringBody cs2).map (fun p => ('\x0d' :: p.1, p.2))
        else if e = 't' then (parseStringBody cs2).map (fun p => ('\x09' :: p.1, p.2))
        else if e = 'u' then
          match cs2 with
          | h1 :: h2 :: h3 :: h4 :: cs3 =>
            match hexVal h1, hexVal h2, hexVal h3, hexVal h4 with
            | some a, some b, some c2, some d =>
              let n := ((a * 16 + b) * 16 + c2) * 16 + d
              if Nat.isValidChar n then
                (parseStringBody cs3).map (fun p => (Char.ofNat n :: p.1, p.2))
              else none
            | _, _, _, _ => none
          | _ => none
        else none
    else if c.toNat < 32 then none
    else (parseStringBody cs).map (fun p => (c :: p.1, p.2))

/-- Digit run of a JSON integer literal (leading zeros rejected). -/
def parseDigits (cs : List Char) : Option (Nat × List Char) :=
  if cs.takeWhile isDigitCh = [] then none
  else if (cs.takeWhile isDigitCh).take 1 = ['0'] ∧ 1 < (cs.takeWhile isDigitCh).length then none
  else some (digitsToNat (cs.takeWhile isDigitCh), cs.dropWhile isDigitCh)

def parseNumber : List Char → Option (JVal × List Char)
  | [] => none
  | c :: r =>
    if c = '-' then (parseDigits r).map (fun p => (.num (-(p.1 : Int)), p.2))
    else (parseDigits (c :: r)).map (fun p => (.num (p.1 : Int), p.2))

mutual

def parseVal : Nat → List Char → Option (JVal × List Char)
  | 0, _ => none
  | fuel + 1, cs =>
    match skipWs cs with
    | [] => none
    | c :: r =>
      if c = 'n' then (dropLit ('u' :: 'l' :: 'l' :: []) r).map (fun r2 => (.null, r2))
      else if c = 't' then (dropLit ('r' :: 'u' :: 'e' :: []) r).map (fun r2 => (.bool true, r2))
      else if c = 'f' then (dropLit ('a' :: 'l' :: 's' :: 'e' :: []) r).map (fun r2 => (.bool false, r2))
      else if c = '"' then (parseStringBody r).map (fun p => (.str (String.mk p.1), p.2))
      else if c = '[' then
        match skipWs r with
        | [] => none
        | d :: r2 =>
          if d = ']' then some (.arr [], r2)
          else (parseItems fuel (d :: r2)).map (fun p => (.arr p.1, p.2))
      else if c = '{' then
        match skipWs r with
        | [] => none
        | d :: r2 =>
          if d = '}' then some (.obj [], r2)
          else (parseMembers fuel (d :: r2)).map (fun p => (.obj p.1, p.2))
      else parseNumber (c :: r)

def parseItems : Nat → List Char → Option (List JVal × List Char)
  | 0, _ => none
  | fuel + 1, cs =>
    match parseVal fuel cs with
    | none => none
    | some (v, r) =>
      match skipWs r with
      | [] => none
      | d :: r2 =>
        if d = ',' then (parseItems fuel r2).map (fun p => (v :: p.1, p.2))
        else if d = ']' then some ([v], r2)
        else none

def parseMembers : Nat → List Char → Option (List (String × JVal) × List Char)
  | 0, _ => none
  | fuel + 1, cs =>
    match skipWs cs with
    | [] => none
    | c :: r =>
      if c = '"' then
        match parseStringBody r with
        | none => none
        | some (k, r2) =>
          match skipWs r2 with
          | [] => none
          | d :: r3 =>
            if d = ':' then
              match parseVal fuel r3 with
              | none => none
              | some (v, r4) =>
                match skipWs r4 with
                | [] => none
                | e :: r5 =>
                  if e = ',' then (parseMembers fuel r5).map (fun p => ((String.mk k, v) :: p.1, p.2))
                  else if e = '}' then some ([(String.mk k, v)], r5)
                  else none
            else none
      else none

end

theorem parseVal_succ (f : Nat) (cs : List Char) :
    parseVal (f + 1) cs =
      match skipWs cs with
      | [] => none
      | c :: r =>
        if c = 'n' then (dropLit ('u' :: 'l' :: 'l' :: []) r).map (fun r2 => (.null, r2))
        else if c = 't' then (dropLit ('r' :: 'u' :: 'e' :: []) r).map (fun r2 => (.bool true, r2))
        else if c = 'f' then
          (dropLit ('a' :: 'l' :: 's' :: 'e' :: []) r).map (fun r2 => (.bool false, r2))
        else if c = '"' then (parseStringBody r).map (fun p => (.str (String.mk p.1), p.2))
        else if c = '[' then
          match skipWs r with
          | [] => none
          | d :: r2 =>
            if d = ']' then some (.arr [], r2)
            else (parseItems f (d :: r2)).map (fun p => (.arr p.1, p.2))
        else if c = '{' then
          match skipWs r with
          | [] => none
          | d :: r2 =>
            if d = '}' then some (.obj [], r2)
            else (parseMembers f (d :: r2)).map (fun p => (.obj p.1, p.2))
        else parseNumber (c :: r) := rfl

theorem parseItems_succ (f : Nat) (cs : List Char) :
    parseItems (f + 1) cs =
      match parseVal f cs with
      | none => none
      | some (v, r) =>
        match skipWs r with
        | [] => none
        | d :: r2 =>
          if d = ',' then (parseItems f r2).map (fun p => (v :: p.1, p.2))
          else if d = ']' then some ([v], r2)
          else none := rfl

theorem parseMembers_succ (f : Nat) (cs : List Char) :
    parseMembers (f + 1) cs =
      match skipWs cs with
      | [] => none
      | c :: r =>
        if c = '"' then
          match parseStringBody r with
          | none => none
          | some (k, r2) =>
            match skipWs r2 with
            | [] => none
            | d :: r3 =>
              if d = ':' then
                match parseVal f r3 with
                | none => none
                | some (v, r4) =>
                  match skipWs r4 with
                  | [] => none
                  | e :: r5 =>
                    if e = ',' then
                      (parseMembers f r5).map (fun p => ((String.mk k, v) :: p.1, p.2))
                    else if e = '}' then some ([(String.mk k, v)], r5)
                    else none
              else none
        else none := rfl

/-- Full `JSON.parse` model: parse one value and require only trailing
    whitespace afterwards. -/
def parseJson (cs : List Char) : Option JVal :=
  match parseVal (cs.length + 1) cs with
  | some (v, rest) => if skipWs rest = [] then some v else none
  | none => none

/- Fuel sufficient for `parseVal`/`parseItems`/`parseMembers` on the
   serialization of a value. -/
mutual

def bfuelV : JVal → Nat
  | .null => 1
  | .undefined => 1
  | .bool _ => 1
  | .num _ => 1
  | .str _ => 1
  | .arr xs => bfuelL xs + 1
  | .obj kvs => bfuelM kvs + 1

def bfuelL : List JVal → Nat
  | [] => 1
  | x :: r => max (bfuelV x) (bfuelL r) + 1

def bfuelM : List (String × JVal) → Nat
  | [] => 1
  | (_, v) :: r => max (bfuelV v) (bfuelM r) + 1

end

/- ────────────────────────────────────────────────────────────
   Round trip: `JSON.parse (JSON.stringify v) = v` for values with no
   `undefined` inside (the pipeline's payloads and seals), first as a
   prefix lemma over an arbitrary continuation.
   ──────────────────────────────────────────────────────────── -/

/-- `true` when the continuation does not start with a digit (so a
    number literal before it ends exactly where intended). -/
def noDigitStart : List Char → Bool
  | [] => true
  | c :: _ => !(isDigitCh c)

theorem skipWs_not_ws {c : Char} (r : List Char) (h : isWsChar c = false) :
    skipWs (c :: r) = c :: r := by
  simp [skipWs, h]

theorem isDigitCh_facts (c : Char) (h : isDigitCh c = true) :
    isWsChar c = false ∧ c ≠ 'n' ∧ c ≠ 't' ∧ c ≠ 'f' ∧ c ≠ '"' ∧ c ≠ '[' ∧
      c ≠ '{' ∧ c ≠ '-' ∧ c ≠ ']' ∧ c ≠ '}' ∧ c ≠ ',' ∧ c ≠ ':' := by
  refine ⟨?_, fun he => absurd (he ▸ h) (by decide), fun he => absurd (he ▸ h) (by decide),
    fun he => absurd (he ▸ h) (by decide), fun he => absurd (he ▸ h) (by decide),
    fun he => absurd (he ▸ h) (by decide), fun he => absurd (he ▸ h) (by decide),
    fun he => absurd (he ▸ h) (by decide), fun he => absurd (he ▸ h) (by decide),
    fun he => absurd (he ▸ h) (by decide), fun he => absurd (he ▸ h) (by decide),
    fun he => absurd (he ▸ h) (by decide)⟩
  cases hw : isWsChar c with
  | false => rfl
  | true =>
    exfalso
    simp only [isWsChar, Bool.or_eq_true, decide_eq_true_eq] at hw
    rcases hw with ((hw | hw) | hw) | hw <;> (subst hw; exact absurd h (by decide))

theorem natDec_cons (n : Nat) :
    ∃ d t, natDec n = d :: t ∧ isDigitCh d = true := by
  rcases hne : natDec n with _ | ⟨d, t⟩
  · exact absurd hne (natDec_ne_nil n)
  · exact ⟨d, t, rfl, natDec_digits n d (by rw [hne]; exact List.mem_cons_self d t)⟩

theorem natDec_zero_head (n : Nat) (t : List Char) (h : natDec n = '0' :: t) : t = [] := by
  rcases Nat.lt_or_ge n 10 with h10 | h10
  · rw [natDec_eq, if_pos h10] at h
    exact (List.cons.injEq _ _ _ _ ▸ h).2.symm
  · exfalso
    rw [natDec_eq, if_neg (by omega)] at h
    obtain ⟨d, t', hd, _⟩ := natDec_cons (n / 10)
    rw [hd] at h
    simp only [List.cons_append, List.cons.injEq] at h
    obtain ⟨hd0, hrest⟩ := h
    subst hd0
    have ht' : t' = [] := natDec_zero_head (n / 10) t' hd
    subst ht'
    have : digitsToNat (natDec (n / 10)) = n / 10 := digitsToNat_natDec (n / 10)
    rw [hd] at this
    simp [digitsToNat] at this
    omega
decreasing_by exact Nat.div_lt_self (by omega) (by omega)

theorem takeWhile_append_all {p : Char → Bool} (a b : List Char)
    (ha : ∀ c ∈ a, p c = true) :
    List.takeWhile p (a ++ b) = a ++ List.takeWhile p b := by
  induction a with
  | nil => simp
  | cons c r ih =>
    simp only [List.cons_append, List.takeWhile_cons, ha c (List.mem_cons_self c r), if_true]
    rw [ih (fun x hx => ha x (List.mem_cons_of_mem c hx))]

theorem dropWhile_append_all {p : Char → Bool} (a b : List Char)
    (ha : ∀ c ∈ a, p c = true) :
    List.dropWhile p (a ++ b) = List.dropWhile p b := by
  induction a with
  | nil => simp
  | cons c r ih =>
    simp only [List.cons_append, List.dropWhile_cons, ha c (List.mem_cons_self c r)]
    exact ih (fun x hx => ha x (List.mem_cons_of_mem c hx))

theorem takeWhile_noDigitStart (b : List Char) (hb : noDigitStart b = true) :
    List.takeWhile isDigitCh b = [] := by
  cases b with
  | nil => rfl
  | cons c r =>
    simp only [noDigitStart, Bool.not_eq_true'] at hb
    simp [List.takeWhile_cons, hb]

theorem dropWhile_noDigitStart (b : List Char) (hb : noDigitStart b = true) :
    List.dropWhile isDigitCh b = b := by
  cases b with
  | nil => rfl
  | cons c r =>
    simp only [noDigitStart, Bool.not_eq_true'] at hb
    simp [List.dropWhile_cons, hb]

theorem parseDigits_natDec (n : Nat) (rest : List Char) (hrest : noDigitStart rest = true) :
    parseDigits (natDec n ++ rest) = some (n, rest) := by
  have htake : List.takeWhile isDigitCh (natDec n ++ rest) = natDec n := by
    rw [takeWhile_append_all _ _ (natDec_digits n), takeWhile_noDigitStart rest hrest,
      List.append_nil]
  have hdrop : List.dropWhile isDigitCh (natDec n ++ rest) = rest := by
    rw [dropWhile_append_all _ _ (natDec_digits n), dropWhile_noDigitStart rest hrest]
  rw [parseDigits, htake, hdrop]
  have hcond : ¬((natDec n).take 1 = ['0'] ∧ 1 < (natDec n).length) := by
    rintro ⟨h0, hlen⟩
    obtain ⟨d, t, hd, _⟩ := natDec_cons n
    rw [hd] at h0 hlen
    simp at h0
    subst h0
    have : t = [] := natDec_zero_head n t hd
    subst this
    simp at hlen
  rw [if_neg (natDec_ne_nil n), if_neg hcond, digitsToNat_natDec]

theorem parseNumber_intDec (i : Int) (rest : List Char) (hrest : noDigitStart rest = true) :
    parseNumber (intDec i ++ rest) = some (.num i, rest) := by
  by_cases hneg : i < 0
  · rw [intDec, if_pos hneg]
    have habs : ((i.natAbs : Nat) : Int) = -i := by omega
    rw [List.cons_append, parseNumber.eq_def]
    simp [parseDigits_natDec i.natAbs rest hrest, habs]
  · rw [intDec, if_neg hneg]
    obtain ⟨d, t, hd, hdig⟩ := natDec_cons i.toNat
    rw [hd, List.cons_append, parseNumber.eq_def]
    simp only [if_neg (isDigitCh_facts d hdig).2.2.2.2.2.2.2.1]
    rw [← List.cons_append, ← hd, parseDigits_natDec i.toNat rest hrest]
    have hnn : ((i.toNat : Nat) : Int) = i := by omega
    simp [hnn]

theorem hexVal_hexChar (n : Nat) (h : n < 16) : hexVal (hexChar n) = some n := by
  interval_cases n <;> decide

/-- Parsing back one escaped character. -/
theorem parseStringBody_esc (s : List Char) (rest : List Char) :
    parseStringBody (escString s ++ '"' :: rest) = some (s, rest) := by
  induction s with
  | nil =>
    rw [show escString [] ++ '"' :: rest = '"' :: rest by simp [escString]]
    rw [parseStringBody.eq_def]
    simp
  | cons c s' ih =>
    have hstep : escString (c :: s') = escChar c ++ escString s' := by
      simp [escString]
    rw [hstep, List.append_assoc]
    by_cases h1 : c = '"'
    · subst h1
      rw [show escChar '"' = ['\\', '"'] from rfl]
      rw [List.cons_append, List.cons_append, List.nil_append, parseStringBody.eq_def]
      simp [ih]
    · by_cases h2 : c = '\\'
      · subst h2
        rw [show escChar '\\' = ['\\', '\\'] from rfl]
        rw [List.cons_append, List.cons_append, List.nil_append, parseStringBody.eq_def]
        simp [ih]
      · by_cases h3 : c = '\x08'
        · subst h3
          rw [show escChar '\x08' = ['\\', 'b'] from rfl]
          rw [List.cons_append, List.cons_append, List.nil_append, parseStringBody.eq_def]
          simp [ih]
        · by_cases h4 : c = '\x09'
          · subst h4
            rw [show escChar '\x09' = ['\\', 't'] from rfl]
            rw [List.cons_append, List.cons_append, List.nil_append, parseStringBody.eq_def]
            simp [ih]
          · by_cases h5 : c = '\x0a'
            · subst h5
              rw [show escChar '\x0a' = ['\\', 'n'] from rfl]
              rw [List.cons_append, List.cons_append, List.nil_append, parseStringBody.eq_def]
              simp [ih]
            · by_cases h6 : c = '\x0c'
              · subst h6
                rw [show escChar '\x0c' = ['\\', 'f'] from rfl]
                rw [List.cons_append, List.cons_append, List.nil_append, parseStringBody.eq_def]
                simp [ih]
              · by_cases h7 : c = '\x0d'
                · subst h7
                  rw [show escChar '\x0d' = ['\\', 'r'] from rfl]
                  rw [List.cons_append, List.cons_append, List.nil_append, parseStringBody.eq_def]
                  simp [ih]
                · by_cases h8 : c.toNat < 32
                  · rw [escChar, if_neg h1, if_neg h2, if_neg h3, if_neg h4, if_neg h5,
                      if_neg h6, if_neg h7, if_pos h8]
                    have hv : Nat.isValidChar c.toNat := Or.inl (by omega)
                    have hofNat : Char.ofNat c.toNat = c := Char.ofNat_toNat c
                    simp only [List.cons_append, List.nil_append]
                    rw [parseStringBody.eq_def]
                    simp [show hexVal '0' = some 0 from by decide,
                      hexVal_hexChar (c.toNat / 16) (by omega),
                      hexVal_hexChar (c.toNat % 16) (by omega), ih]
                    rw [show c.toNat / 16 * 16 + c.toNat % 16 = c.toNat from by omega]
                    exact ⟨hv, hofNat⟩
                  · have hesc : escChar c = [c] := by
                      rw [escChar, if_neg h1, if_neg h2, if_neg h3, if_neg h4, if_neg h5,
                        if_neg h6, if_neg h7, if_neg h8]
                    rw [hesc, List.cons_append, List.nil_append, parseStringBody.eq_def]
                    simp only [if_neg h1, if_neg h2, if_neg h8, ih]
                    rfl

theorem joinComma_cons_ex {a : List Char} {l : List (List Char)} :
    ∃ z, joinComma (a :: l) = a ++ z := by
  cases l with
  | nil => exact ⟨[], by simp [joinComma]⟩
  | cons b r => exact ⟨',' :: joinComma (b :: r), by rw [joinComma]⟩

/-- Every serialized value starts with a non-whitespace character that is
    not a closing delimiter or separator. -/
theorem stringify_head_ok (j : JVal) (s : List Char) (hnu : noUndefV j = true)
    (hs : stringifyVal j = some s) :
    ∃ c t, s = c :: t ∧ isWsChar c = false ∧ c ≠ ']' ∧ c ≠ '}' ∧ c ≠ ',' := by
  cases j with
  | null =>
    rw [show stringifyVal .null = some ('n' :: 'u' :: 'l' :: 'l' :: []) from rfl] at hs
    exact ⟨'n', _, (Option.some.inj hs).symm, by decide, by decide, by decide, by decide⟩
  | undefined => simp [noUndefV] at hnu
  | bool b =>
    cases b with
    | true =>
      rw [show stringifyVal (.bool true) = some ('t' :: 'r' :: 'u' :: 'e' :: []) from rfl] at hs
      exact ⟨'t', _, (Option.some.inj hs).symm, by decide, by decide, by decide, by decide⟩
    | false =>
      rw [show stringifyVal (.bool false) = some ('f' :: 'a' :: 'l' :: 's' :: 'e' :: []) from
        rfl] at hs
      exact ⟨'f', _, (Option.some.inj hs).symm, by decide, by decide, by decide, by decide⟩
  | num i =>
    rw [show stringifyVal (.num i) = some (intDec i) from rfl] at hs
    replace hs := Option.some.inj hs
    by_cases hneg : i < 0
    · rw [intDec, if_pos hneg] at hs
      exact ⟨'-', _, hs.symm, by decide, by decide, by decide, by decide⟩
    · rw [intDec, if_neg hneg] at hs
      obtain ⟨d, t, hd, hdig⟩ := natDec_cons i.toNat
      rw [hd] at hs
      obtain ⟨hws, _, _, _, _, _, _, _, hbr1, hbr2, hcm, _⟩ := isDigitCh_facts d hdig
      exact ⟨d, t, hs.symm, hws, hbr1, hbr2, hcm⟩
  | str v =>
    rw [show stringifyVal (.str v) = some (quoteStr v) from rfl] at hs
    refine ⟨'"', escString v.data ++ ['"'], ?_, by decide, by decide, by decide, by decide⟩
    rw [← Option.some.inj hs, quoteStr]
    rfl
  | arr xs =>
    rw [show stringifyVal (.arr xs) = some ('[' :: joinComma (stringifyItems xs) ++ [']'])
      from rfl] at hs
    exact ⟨'[', _, (Option.some.inj hs).symm, by decide, by decide, by decide, by decide⟩
  | obj kvs =>
    rw [show stringifyVal (.obj kvs) = some ('{' :: joinComma (stringifyMembers kvs) ++ ['}'])
      from rfl] at hs
    exact ⟨'{', _, (Option.some.inj hs).symm, by decide, by decide, by decide, by decide⟩

theorem stringify_isSome (j : JVal) (hnu : noUndefV j = true) :
    ∃ s, stringifyVal j = some s := by
  cases j with
  | null => exact ⟨_, rfl⟩
  | undefined => simp [noUndefV] at hnu
  | bool b => exact ⟨_, rfl⟩
  | num i => exact ⟨_, rfl⟩
  | str v => exact ⟨_, rfl⟩
  | arr xs => exact ⟨_, rfl⟩
  | obj kvs => exact ⟨_, rfl⟩

theorem noDigitStart_cons (c : Char) (r : List Char) (h : isDigitCh c = false) :
    noDigitStart (c :: r) = true := by
  simp [noDigitStart, h]

mutual

theorem parseVal_rt (j : JVal) (fuel : Nat) (s rest : List Char) (hnu : noUndefV j = true)
    (hs : stringifyVal j = some s) (hf : bfuelV j ≤ fuel) (hr : noDigitStart rest = true) :
    parseVal fuel (s ++ rest) = some (j, rest) := by
  obtain ⟨f, rfl⟩ : ∃ f, fuel = f + 1 := by
    refine ⟨fuel - 1, ?_⟩
    have : 1 ≤ bfuelV j := by cases j <;> simp [bfuelV]
    omega
  cases j with
  | null =>
    have hs' : s = 'n' :: 'u' :: 'l' :: 'l' :: [] := (Option.some.inj hs).symm
    subst hs'
    rw [parseVal_succ]
    simp [skipWs, dropLit, isWsChar]
  | undefined => simp [noUndefV] at hnu
  | bool b =>
    cases b with
    | true =>
      have hs' : s = 't' :: 'r' :: 'u' :: 'e' :: [] := (Option.some.inj hs).symm
      subst hs'
      rw [parseVal_succ]
      simp [skipWs, dropLit, isWsChar]
    | false =>
      have hs' : s = 'f' :: 'a' :: 'l' :: 's' :: 'e' :: [] := (Option.some.inj hs).symm
      subst hs'
      rw [parseVal_succ]
      simp [skipWs, dropLit, isWsChar]
  | num i =>
    have hs' : s = intDec i := (Option.some.inj hs).symm
    subst hs'
    rw [parseVal_succ]
    by_cases hneg : i < 0
    · rw [show intDec i = '-' :: natDec i.natAbs from by rw [intDec, if_pos hneg]]
      rw [List.cons_append, skipWs_not_ws _ (by decide)]
      simp only [reduceCtorEq]
      rw [show ('-' :: (natDec i.natAbs ++ rest)) = intDec i ++ rest from by
        rw [intDec, if_pos hneg, List.cons_append]]
      simp [parseNumber_intDec i rest hr]
    · obtain ⟨d, t, hd, hdig⟩ := natDec_cons i.toNat
      have hfacts := isDigitCh_facts d hdig
      rw [show intDec i = d :: t from by rw [intDec, if_neg hneg, hd]]
      rw [List.cons_append, skipWs_not_ws _ hfacts.1]
      simp only [if_neg hfacts.2.1, if_neg hfacts.2.2.1, if_neg hfacts.2.2.2.1,
        if_neg hfacts.2.2.2.2.1, if_neg hfacts.2.2.2.2.2.1, if_neg hfacts.2.2.2.2.2.2.1]
      rw [show (d :: (t ++ rest)) = intDec i ++ rest from by
        rw [intDec, if_neg hneg, hd, List.cons_append]]
      exact parseNumber_intDec i rest hr
  | str v =>
    have hs' : s = quoteStr v := (Option.some.inj hs).symm
    subst hs'
    rw [show quoteStr v ++ rest = '"' :: (escString v.data ++ '"' :: rest) from by
      rw [quoteStr]; simp]
    rw [parseVal_succ, skipWs_not_ws _ (by decide)]
    simp [parseStringBody_esc v.data rest]
  | arr xs =>
    have hs' : s = '[' :: joinComma (stringifyItems xs) ++ [']'] := (Option.some.inj hs).symm
    subst hs'
    have hf' : bfuelL xs ≤ f := by
      have : bfuelV (.arr xs) = bfuelL xs + 1 := rfl
      omega
    rw [show ('[' :: joinComma (stringifyItems xs) ++ [']']) ++ rest
      = '[' :: (joinComma (stringifyItems xs) ++ ']' :: rest) from by simp]
    rw [parseVal_succ, skipWs_not_ws _ (by decide)]
    cases xs with
    | nil =>
      rw [show joinComma (stringifyItems ([] : List JVal)) ++ ']' :: rest = ']' :: rest from rfl]
      simp [skipWs, isWsChar]
    | cons x xr =>
      have hnuL : noUndefL (x :: xr) = true := by
        have : noUndefV (.arr (x :: xr)) = noUndefL (x :: xr) := rfl
        rw [← this]
        exact hnu
      have hnu' : noUndefV x = true ∧ noUndefL xr = true := by
        have : noUndefL (x :: xr) = (noUndefV x && noUndefL xr) := rfl
        rw [this, Bool.and_eq_true] at hnuL
        exact hnuL
      have hnuL' : noUndefL (x :: xr) = true := by
        have : noUndefL (x :: xr) = (noUndefV x && noUndefL xr) := rfl
        rw [this, Bool.and_eq_true]
        exact hnu'
      obtain ⟨sx, hsx⟩ := stringify_isSome x hnu'.1
      have hitems : stringifyItems (x :: xr) = sx :: stringifyItems xr := by
        rw [show stringifyItems (x :: xr)
          = ((stringifyVal x).getD ('n' :: 'u' :: 'l' :: 'l' :: [])) :: stringifyItems xr
          from rfl, hsx]
        rfl
      obtain ⟨z, hz⟩ := joinComma_cons_ex (a := sx) (l := stringifyItems xr)
      obtain ⟨c0, t0, hsx0, hws0, hbr0, _, _⟩ := stringify_head_ok x sx hnu'.1 hsx
      have harg : joinComma (stringifyItems (x :: xr)) ++ ']' :: rest
          = c0 :: (t0 ++ (z ++ ']' :: rest)) := by
        rw [hitems, hz, hsx0]
        simp
      have hres := parseItems_rt (x :: xr) f rest hnuL' (by simp) hf' hr
      rw [harg] at hres ⊢
      simp [skipWs, hws0, hbr0, hres]
  | obj kvs =>
    have hs' : s = '{' :: joinComma (stringifyMembers kvs) ++ ['}'] := (Option.some.inj hs).symm
    subst hs'
    have hf' : bfuelM kvs ≤ f := by
      have : bfuelV (.obj kvs) = bfuelM kvs + 1 := rfl
      omega
    rw [show ('{' :: joinComma (stringifyMembers kvs) ++ ['}']) ++ rest
      = '{' :: (joinComma (stringifyMembers kvs) ++ '}' :: rest) from by simp]
    rw [parseVal_succ, skipWs_not_ws _ (by decide)]
    cases kvs with
    | nil =>
      rw [show joinComma (stringifyMembers ([] : List (String × JVal))) ++ '}' :: rest
        = '}' :: rest from rfl]
      simp [skipWs, isWsChar]
    | cons kv r =>
      obtain ⟨k, v⟩ := kv
      have hnuM : noUndefM ((k, v) :: r) = true := by
        have : noUndefV (.obj ((k, v) :: r)) = noUndefM ((k, v) :: r) := rfl
        rw [← this]
        exact hnu
      obtain ⟨sv, hsv⟩ := stringify_isSome v (by
        have : noUndefM ((k, v) :: r) = (noUndefV v && noUndefM r) := rfl
        rw [this, Bool.and_eq_true] at hnuM
        exact hnuM.1)
      have hmem : stringifyMembers ((k, v) :: r) = (quoteStr k ++ ':' :: sv) :: stringifyMembers r := by
        rw [show stringifyMembers ((k, v) :: r)
          = (match stringifyVal v with
             | none => stringifyMembers r
             | some sv => (quoteStr k ++ ':' :: sv) :: stringifyMembers r) from rfl, hsv]
      obtain ⟨z, hz⟩ := joinComma_cons_ex (a := quoteStr k ++ ':' :: sv) (l := stringifyMembers r)
      have harg : joinComma (stringifyMembers ((k, v) :: r)) ++ '}' :: rest
          = '"' :: (escString k.data ++ ('"' :: (':' :: (sv ++ (z ++ '}' :: rest))))) := by
        rw [hmem, hz, quoteStr]
        simp
      have hres := parseMembers_rt ((k, v) :: r) f rest hnuM hf' hr (by simp)
      rw [harg] at hres ⊢
      simp [skipWs, isWsChar, hres]

theorem parseItems_rt (xs : List JVal) (fuel : Nat) (rest : List Char)
    (hnu : noUndefL xs = true) (hne : xs ≠ []) (hf : bfuelL xs ≤ fuel)
    (hr : noDigitStart rest = true) :
    parseItems fuel (joinComma (stringifyItems xs) ++ ']' :: rest) = some (xs, rest) := by
  match xs, hne with
  | x :: xr, _ =>
    obtain ⟨f, rfl⟩ : ∃ f, fuel = f + 1 := by
      refine ⟨fuel - 1, ?_⟩
      have : bfuelL (x :: xr) = max (bfuelV x) (bfuelL xr) + 1 := rfl
      omega
    have hnu' : noUndefV x = true ∧ noUndefL xr = true := by
      have : noUndefL (x :: xr) = (noUndefV x && noUndefL xr) := rfl
      rw [this, Bool.and_eq_true] at hnu
      exact hnu
    have hfx : bfuelV x ≤ f := by
      have : bfuelL (x :: xr) = max (bfuelV x) (bfuelL xr) + 1 := rfl
      omega
    obtain ⟨sx, hsx⟩ := stringify_isSome x hnu'.1
    have hitems : stringifyItems (x :: xr) = sx :: stringifyItems xr := by
      rw [show stringifyItems (x :: xr)
        = ((stringifyVal x).getD ('n' :: 'u' :: 'l' :: 'l' :: [])) :: stringifyItems xr
        from rfl, hsx]
      rfl
    rw [parseItems_succ]
    cases xr with
    | nil =>
      rw [show joinComma (stringifyItems [x]) ++ ']' :: rest = sx ++ ']' :: rest from by
        rw [hitems]; rfl]
      rw [parseVal_rt x f sx (']' :: rest) hnu'.1 hsx hfx (noDigitStart_cons _ _ (by decide))]
      simp [skipWs, isWsChar]
    | cons y r2 =>
      have hnu2 : noUndefV y = true ∧ noUndefL r2 = true := by
        have h1 : noUndefL (y :: r2) = (noUndefV y && noUndefL r2) := rfl
        have h2 := hnu'.2
        rw [h1, Bool.and_eq_true] at h2
        exact h2
      obtain ⟨sy, hsy⟩ := stringify_isSome y hnu2.1
      have hitems2 : stringifyItems (y :: r2) = sy :: stringifyItems r2 := by
        rw [show stringifyItems (y :: r2)
          = ((stringifyVal y).getD ('n' :: 'u' :: 'l' :: 'l' :: [])) :: stringifyItems r2
          from rfl, hsy]
        rfl
      have hjoin : joinComma (stringifyItems (x :: y :: r2)) ++ ']' :: rest
          = sx ++ (',' :: (joinComma (stringifyItems (y :: r2)) ++ ']' :: rest)) := by
        rw [hitems, hitems2]
        rw [show joinComma (sx :: sy :: stringifyItems r2)
          = sx ++ ',' :: joinComma (sy :: stringifyItems r2) from rfl]
        rw [← hitems2]
        simp
      rw [hjoin]
      rw [parseVal_rt x f sx (',' :: (joinComma (stringifyItems (y :: r2)) ++ ']' :: rest))
        hnu'.1 hsx hfx (noDigitStart_cons _ _ (by decide))]
      have hfr : bfuelL (y :: r2) ≤ f := by
        have : bfuelL (x :: y :: r2) = max (bfuelV x) (bfuelL (y :: r2)) + 1 := rfl
        omega
      have hres := parseItems_rt (y :: r2) f rest hnu'.2 (by simp) hfr hr
      simp [skipWs, isWsChar, hres]

theorem parseMembers_rt (kvs : List (String × JVal)) (fuel : Nat) (rest : List Char)
    (hnu : noUndefM kvs = true) (hf : bfuelM kvs ≤ fuel)
    (hr : noDigitStart rest = true) :
    kvs ≠ [] →
    parseMembers fuel (joinComma (stringifyMembers kvs) ++ '}' :: rest) = some (kvs, rest) := by
  intro hne
  match kvs, hne with
  | (k, v) :: r, _ =>
    obtain ⟨f, rfl⟩ : ∃ f, fuel = f + 1 := by
      refine ⟨fuel - 1, ?_⟩
      have : bfuelM ((k, v) :: r) = max (bfuelV v) (bfuelM r) + 1 := rfl
      omega
    have hnu' : noUndefV v = true ∧ noUndefM r = true := by
      have : noUndefM ((k, v) :: r) = (noUndefV v && noUndefM r) := rfl
      rw [this, Bool.and_eq_true] at hnu
      exact hnu
    have hfv : bfuelV v ≤ f := by
      have : bfuelM ((k, v) :: r) = max (bfuelV v) (bfuelM r) + 1 := rfl
      omega
    obtain ⟨sv, hsv⟩ := stringify_isSome v hnu'.1
    have hmem : stringifyMembers ((k, v) :: r) = (quoteStr k ++ ':' :: sv) :: stringifyMembers r := by
      rw [show stringifyMembers ((k, v) :: r)
        = (match stringifyVal v with
           | none => stringifyMembers r
           | some sv => (quoteStr k ++ ':' :: sv) :: stringifyMembers r) from rfl, hsv]
    obtain ⟨z, hz⟩ := joinComma_cons_ex (a := quoteStr k ++ ':' :: sv) (l := stringifyMembers r)
    have hzshape : ∀ w : List Char,
        joinComma (stringifyMembers ((k, v) :: r)) ++ w
          = '"' :: (escString k.data ++ ('"' :: (':' :: (sv ++ (z ++ w))))) := by
      intro w
      rw [hmem, hz, quoteStr]
      simp
    cases hrr : stringifyMembers r with
    | nil =>
      have hrnil : r = [] := by
        cases r with
        | nil => rfl
        | cons p r' =>
          exfalso
          obtain ⟨k2, v2⟩ := p
          have hnuv2 : noUndefV v2 = true := by
            have h1 : noUndefM ((k2, v2) :: r') = (noUndefV v2 && noUndefM r') := rfl
            have := hnu'.2
            rw [h1, Bool.and_eq_true] at this
            exact this.1
          obtain ⟨sv2, hsv2⟩ := stringify_isSome v2 hnuv2
          have : stringifyMembers ((k2, v2) :: r')
              = (quoteStr k2 ++ ':' :: sv2) :: stringifyMembers r' := by
            rw [show stringifyMembers ((k2, v2) :: r')
              = (match stringifyVal v2 with
                 | none => stringifyMembers r'
                 | some s2 => (quoteStr k2 ++ ':' :: s2) :: stringifyMembers r') from rfl, hsv2]
          rw [this] at hrr
          exact absurd hrr (by simp)
      subst hrnil
      have hz' : z = [] := by
        rw [show stringifyMembers ([] : List (String × JVal)) = [] from rfl] at hz
        rw [show joinComma [quoteStr k ++ ':' :: sv] = quoteStr k ++ ':' :: sv from rfl] at hz
        have h2 : (quoteStr k ++ ':' :: sv) ++ z = quoteStr k ++ ':' :: sv := hz.symm
        simpa using h2
      subst hz'
      have hv' := parseVal_rt v f sv ('}' :: rest) hnu'.1 hsv hfv
        (noDigitStart_cons _ _ (by decide))
      rw [parseMembers_succ, hzshape ('}' :: rest)]
      rw [skipWs_not_ws _ (by decide)]
      simp [skipWs, isWsChar, parseStringBody_esc, hv']
    | cons m ms =>
      have hrne : r ≠ [] := by
        intro hre
        subst hre
        simp [stringifyMembers] at hrr
      have hzc : z = ',' :: joinComma (m :: ms) := by
        rw [hrr] at hz
        rw [show joinComma ((quoteStr k ++ ':' :: sv) :: m :: ms)
          = (quoteStr k ++ ':' :: sv) ++ ',' :: joinComma (m :: ms) from rfl] at hz
        exact (List.append_cancel_left hz).symm
      subst hzc
      have hv' := parseVal_rt v f sv (',' :: (joinComma (m :: ms) ++ '}' :: rest)) hnu'.1 hsv
        hfv (noDigitStart_cons _ _ (by decide))
      have hfr : bfuelM r ≤ f := by
        have : bfuelM ((k, v) :: r) = max (bfuelV v) (bfuelM r) + 1 := rfl
        omega
      have hres := parseMembers_rt r f rest hnu'.2 hfr hr hrne
      rw [hrr] at hres
      rw [parseMembers_succ, hzshape ('}' :: rest)]
      rw [skipWs_not_ws _ (by decide)]
      simp [skipWs, isWsChar, parseStringBody_esc, hv', hres]

end

mutual

theorem bfuelV_le (j : JVal) (s : List Char) (hnu : noUndefV j = true)
    (hs : stringifyVal j = some s) : bfuelV j ≤ s.length + 1 := by
  cases j with
  | null => rw [show bfuelV .null = 1 from rfl]; omega
  | undefined => simp [noUndefV] at hnu
  | bool b => rw [show bfuelV (.bool b) = 1 from rfl]; omega
  | num i => rw [show bfuelV (.num i) = 1 from rfl]; omega
  | str v => rw [show bfuelV (.str v) = 1 from rfl]; omega
  | arr xs =>
    have hs' : s = '[' :: joinComma (stringifyItems xs) ++ [']'] := (Option.some.inj hs).symm
    subst hs'
    have h1 := bfuelL_le xs (by
      have : noUndefV (.arr xs) = noUndefL xs := rfl
      rw [← this]; exact hnu)
    rw [show bfuelV (.arr xs) = bfuelL xs + 1 from rfl]
    simp only [List.length_cons, List.length_append, List.length_singleton]
    omega
  | obj kvs =>
    have hs' : s = '{' :: joinComma (stringifyMembers kvs) ++ ['}'] := (Option.some.inj hs).symm
    subst hs'
    have h1 := bfuelM_le kvs (by
      have : noUndefV (.obj kvs) = noUndefM kvs := rfl
      rw [← this]; exact hnu)
    rw [show bfuelV (.obj kvs) = bfuelM kvs + 1 from rfl]
    simp only [List.length_cons, List.length_append, List.length_singleton]
    omega

theorem bfuelL_le (xs : List JVal) (hnu : noUndefL xs = true) :
    bfuelL xs ≤ (joinComma (stringifyItems xs)).length + 2 := by
  cases xs with
  | nil => rw [show bfuelL [] = 1 from rfl]; omega
  | cons x xr =>
    have hnu' : noUndefV x = true ∧ noUndefL xr = true := by
      have : noUndefL (x :: xr) = (noUndefV x && noUndefL xr) := rfl
      rw [this, Bool.and_eq_true] at hnu
      exact hnu
    obtain ⟨sx, hsx⟩ := stringify_isSome x hnu'.1
    have hvx := bfuelV_le x sx hnu'.1 hsx
    have hitems : stringifyItems (x :: xr) = sx :: stringifyItems xr := by
      rw [show stringifyItems (x :: xr)
        = ((stringifyVal x).getD ('n' :: 'u' :: 'l' :: 'l' :: [])) :: stringifyItems xr
        from rfl, hsx]
      rfl
    rw [show bfuelL (x :: xr) = max (bfuelV x) (bfuelL xr) + 1 from rfl, hitems]
    cases xr with
    | nil =>
      rw [show stringifyItems ([] : List JVal) = [] from rfl]
      rw [show joinComma [sx] = sx from rfl, show bfuelL ([] : List JVal) = 1 from rfl]
      omega
    | cons y r2 =>
      have h2 := bfuelL_le (y :: r2) hnu'.2
      rw [show joinComma (sx :: stringifyItems (y :: r2))
        = sx ++ ',' :: joinComma (stringifyItems (y :: r2)) from by
        obtain ⟨sy, hsy⟩ := stringify_isSome y (by
          have h1 : noUndefL (y :: r2) = (noUndefV y && noUndefL r2) := rfl
          have h3 := hnu'.2
          rw [h1, Bool.and_eq_true] at h3
          exact h3.1)
        rw [show stringifyItems (y :: r2)
          = ((stringifyVal y).getD ('n' :: 'u' :: 'l' :: 'l' :: [])) :: stringifyItems r2
          from rfl, hsy]
        rfl]
      simp only [List.length_append, List.length_cons]
      omega

theorem bfuelM_le (kvs : List (String × JVal)) (hnu : noUndefM kvs = true) :
    bfuelM kvs ≤ (joinComma (stringifyMembers kvs)).length + 2 := by
  cases kvs with
  | nil => rw [show bfuelM [] = 1 from rfl]; omega
  | cons kv r =>
    obtain ⟨k, v⟩ := kv
    have hnu' : noUndefV v = true ∧ noUndefM r = true := by
      have : noUndefM ((k, v) :: r) = (noUndefV v && noUndefM r) := rfl
      rw [this, Bool.and_eq_true] at hnu
      exact hnu
    obtain ⟨sv, hsv⟩ := stringify_isSome v hnu'.1
    have hvv := bfuelV_le v sv hnu'.1 hsv
    have hmem : stringifyMembers ((k, v) :: r) = (quoteStr k ++ ':' :: sv) :: stringifyMembers r := by
      rw [show stringifyMembers ((k, v) :: r)
        = (match stringifyVal v with
           | none => stringifyMembers r
           | some s2 => (quoteStr k ++ ':' :: s2) :: stringifyMembers r) from rfl, hsv]
    rw [show bfuelM ((k, v) :: r) = max (bfuelV v) (bfuelM r) + 1 from rfl, hmem]
    cases hrr : stringifyMembers r with
    | nil =>
      have hrnil : bfuelM r ≤ 2 := by
        have := bfuelM_le r hnu'.2
        rw [hrr, show joinComma ([] : List (List Char)) = [] from rfl] at this
        simpa using this
      rw [show joinComma [quoteStr k ++ ':' :: sv] = quoteStr k ++ ':' :: sv from rfl]
      simp only [List.length_append, List.length_cons, quoteStr]
      omega
    | cons m ms =>
      have h2 := bfuelM_le r hnu'.2
      rw [hrr] at h2
      rw [show joinComma ((quoteStr k ++ ':' :: sv) :: m :: ms)
        = (quoteStr k ++ ':' :: sv) ++ ',' :: joinComma (m :: ms) from rfl]
      simp only [List.length_append, List.length_cons, quoteStr]
      omega

end

/-- Central round-trip theorem: `JSON.parse` recovers exactly the value
    `JSON.stringify` serialized, for every `undefined`-free value. -/
theorem parseJson_stringify (j : JVal) (s : List Char) (hnu : noUndefV j = true)
    (hs : stringifyVal j = some s) : parseJson s = some j := by
  have hfuel : bfuelV j ≤ s.length + 1 := bfuelV_le j s hnu hs
  have h := parseVal_rt j (s.length + 1) s [] hnu hs hfuel rfl
  rw [List.append_nil] at h
  rw [parseJson, h]
  rfl

/- ────────────────────────────────────────────────────────────
   Metadata embedding (PositionSigilMint.tsx `safeCdata`, lines
   140-143, and the `<metadata>` element of `buildSvg`) and the
   extraction side (`extractBetween` / `parseEmbeddedJson` of
   InhaleGlyphGate.tsx, lines 21-64).
   ──────────────────────────────────────────────────────────── -/

/-- The global `raw.replace(/]]>/g, "]]]]><![CDATA[>")` of `safeCdata`:
    left-to-right, non-overlapping replacement. -/
def cdataEscape : List Char → List Char
  | [] => []
  | ']' :: ']' :: '>' :: r =>
    ']' :: ']' :: ']' :: ']' :: '>' :: '<' :: '!' :: '[' :: 'C' :: 'D' :: 'A' :: 'T' :: 'A' ::
      '[' :: '>' :: cdataEscape r
  | c :: r => c :: cdataEscape r

def cdataOpen : List Char :=
  '<' :: '!' :: '[' :: 'C' :: 'D' :: 'A' :: 'T' :: 'A' :: '[' :: []

def cdataClose : List Char :=
  ']' :: ']' :: '>' :: []

/-- `safeCdata` (PositionSigilMint.tsx lines 140-143). -/
def safeCdata (raw : List Char) : List Char :=
  cdataOpen ++ cdataEscape raw ++ cdataClose

/-- The `<metadata>…</metadata>` element that `buildSvg` embeds the
    payload JSON into (PositionSigilMint.tsx line 986). -/
def metadataElement (raw : List Char) : List Char :=
  ('<' :: 'm' :: 'e' :: 't' :: 'a' :: 'd' :: 'a' :: 't' :: 'a' :: '>' :: []) ++
    safeCdata raw ++
    ('<' :: '/' :: 'm' :: 'e' :: 't' :: 'a' :: 'd' :: 'a' :: 't' :: 'a' :: '>' :: [])

/-- ASCII lowering, modelling the `/i` regex flag. -/
def toLowerCh (c : Char) : Char :=
  if 65 ≤ c.toNat ∧ c.toNat ≤ 90 then Char.ofNat (c.toNat + 32) else c

/-- Case-insensitively strip `pat` (given lowercase) from the head of the
    input, returning the remainder. -/
def stripCI : List Char → List Char → Option (List Char)
  | [], s => some s
  | _ :: _, [] => none
  | p :: ps, c :: cs => if toLowerCh c = p then stripCI ps cs else none

/-- Remainder after the first (leftmost) case-insensitive occurrence. -/
def findCI (pat : List Char) : List Char → Option (List Char)
  | [] => stripCI pat []
  | c :: cs =>
    match stripCI pat (c :: cs) with
    | some r => some r
    | none => findCI pat cs

/-- Characters before the first case-insensitive occurrence of `pat`
    (`none` if it never occurs): the lazy group of the extraction regex. -/
def captureUntilCI (pat : List Char) : List Char → Option (List Char)
  | [] => none
  | c :: cs =>
    match stripCI pat (c :: cs) with
    | some _ => some []
    | none => (captureUntilCI pat cs).map (fun cap => c :: cap)

/-- Consume the `[^>]*>` part of the opening tag. -/
def dropThroughGt : List Char → Option (List Char)
  | [] => none
  | c :: cs => if c = '>' then some cs else dropThroughGt cs

/-- Whitespace trimmed by `String.prototype.trim` (ASCII subset; the
    pipeline never produces exotic Unicode whitespace). -/
def isTrimWs (c : Char) : Bool :=
  c = ' ' || c = '\x09' || c = '\x0a' || c = '\x0d' || c = '\x0b' || c = '\x0c'

def trimChars (s : List Char) : List Char :=
  (((s.dropWhile isTrimWs).reverse).dropWhile isTrimWs).reverse

/-- Model of `extractBetween(text, /<tag[^>]*>([\s\S]*?)<\/tag>/i)`
    (leftmost match), including the trim-and-nonempty check
    `extractBetween` applies to the captured group. -/
def extractBetweenTag (nameLower : List Char) (svg : List Char) : Option (List Char) :=
  match findCI ('<' :: nameLower) svg with
  | none => none
  | some afterName =>
    match dropThroughGt afterName with
    | none => none
    | some afterOpen =>
      match captureUntilCI ('<' :: '/' :: nameLower ++ ['>']) afterOpen with
      | none => none
      | some g =>
        if trimChars g = [] then none else some (trimChars g)

/-- `metaRaw.replace(/^<!\[CDATA\[/, "")`. -/
def stripCdataOpen (s : List Char) : List Char :=
  match dropLit cdataOpen s with
  | some r => r
  | none => s

/-- `….replace(/\]\]>$/, "")`. -/
def stripCdataClose (s : List Char) : List Char :=
  if 3 ≤ s.length ∧ s.drop (s.length - 3) = cdataClose then s.take (s.length - 3) else s

def isRecordJ : JVal → Bool
  | .obj _ => true
  | _ => false

/-- Capture of `…pat…"([^"]+)"` (case-insensitive, leftmost), with the
    `extractBetween` trim-and-nonempty check. -/
def captureAttr (pat : List Char) (svg : List Char) : Option (List Char) :=
  match findCI pat svg with
  | none => none
  | some afterPat =>
    let val := afterPat.takeWhile (fun c => c ≠ '"')
    if val = [] then none
    else if (afterPat.drop val.length).take 1 = ['"'] then
      (if trimChars val = [] then none else some (trimChars val))
    else none

def phiKeyPats : List (List Char) :=
  [('d' :: 'a' :: 't' :: 'a' :: '-' :: 'u' :: 's' :: 'e' :: 'r' :: '-' :: 'p' :: 'h' :: 'i' ::
      'k' :: 'e' :: 'y' :: '=' :: '"' :: []),
   ('d' :: 'a' :: 't' :: 'a' :: '-' :: 'u' :: 's' :: 'e' :: 'r' :: 'p' :: 'h' :: 'i' :: 'k' ::
      'e' :: 'y' :: '=' :: '"' :: []),
   ('u' :: 's' :: 'e' :: 'r' :: 'p' :: 'h' :: 'i' :: 'k' :: 'e' :: 'y' :: '"' :: ':' :: '"' :: [])]

def kaiSigPats : List (List Char) :=
  [('d' :: 'a' :: 't' :: 'a' :: '-' :: 'k' :: 'a' :: 'i' :: '-' :: 's' :: 'i' :: 'g' :: 'n' ::
      'a' :: 't' :: 'u' :: 'r' :: 'e' :: '=' :: '"' :: []),
   ('d' :: 'a' :: 't' :: 'a' :: '-' :: 'k' :: 'a' :: 'i' :: 's' :: 'i' :: 'g' :: 'n' :: 'a' ::
      't' :: 'u' :: 'r' :: 'e' :: '=' :: '"' :: []),
   ('k' :: 'a' :: 'i' :: 's' :: 'i' :: 'g' :: 'n' :: 'a' :: 't' :: 'u' :: 'r' :: 'e' :: '"' ::
      ':' :: '"' :: [])]

def firstCapture (pats : List (List Char)) (svg : List Char) : Option (List Char) :=
  match pats with
  | [] => none
  | p :: r =>
    match captureAttr p svg with
    | some v => some v
    | none => firstCapture r svg

/-- The `metaRaw` step of `parseEmbeddedJson`: the first `<metadata>`
    body, else the first `<desc>` body. -/
def metaCapture (svgText : List Char) : Option (List Char) :=
  (extractBetweenTag ('m' :: 'e' :: 't' :: 'a' :: 'd' :: 'a' :: 't' :: 'a' :: []) svgText).orElse
    (fun _ => extractBetweenTag ('d' :: 'e' :: 's' :: 'c' :: []) svgText)

/-- The metadata branch of `parseEmbeddedJson`: strip one leading
    `<![CDATA[` and one trailing `]]>`, trim, `JSON.parse`, accept only
    records. -/
def viaMetaBlock (svgText : List Char) : Option JVal :=
  (metaCapture svgText).bind (fun g =>
    (parseJson (trimChars (stripCdataClose (stripCdataOpen g)))).bind (fun v =>
      if isRecordJ v then some v else none))

/-- The `data-*` attribute fallback of `parseEmbeddedJson`. -/
def attrFallback (svgText : List Char) : Option JVal :=
  match firstCapture phiKeyPats svgText, firstCapture kaiSigPats svgText with
  | none, none => none
  | pk, ks =>
    some (.obj
      [("userPhiKey", (pk.map (fun s => JVal.str (String.mk s))).getD .undefined),
       ("kaiSignature", (ks.map (fun s => JVal.str (String.mk s))).getD .undefined)])

/-- Model of `parseEmbeddedJson` (InhaleGlyphGate.tsx lines 28-64):
    extract the first `<metadata>`/`<desc>` body, strip one leading
    `<![CDATA[` and one trailing `]]>`, trim, `JSON.parse`, and accept
    only records; otherwise fall back to the `data-*` attribute scan. -/
def parseEmbeddedJson (svgText : List Char) : Option JVal :=
  (viaMetaBlock svgText).orElse (fun _ => attrFallback svgText)

/-- Substring test (exact): used to state "the serialized payload
    contains no `]]>`". -/
def containsSeq (pat : List Char) : List Char → Bool
  | [] => (dropLit pat []).isSome
  | c :: cs => (dropLit pat (c :: cs)).isSome || containsSeq pat cs

/-- Case-insensitive substring test. -/
def containsCI (pat : List Char) : List Char → Bool
  | [] => (stripCI pat []).isSome
  | c :: cs => (stripCI pat (c :: cs)).isSome || containsCI pat cs

/- Lemmas leading to the metadata round trip. -/

theorem cdataEscape_id (s : List Char) (h : containsSeq cdataClose s = false) :
    cdataEscape s = s := by
  induction s using cdataEscape.induct with
  | case1 => rfl
  | case2 r ih =>
    exfalso
    rw [containsSeq] at h
    simp [dropLit, cdataClose] at h
  | case3 c r hne ih =>
    rw [containsSeq] at h
    simp only [Bool.or_eq_false_iff] at h
    rw [cdataEscape.eq_def]
    split
    · rename_i heq
      exact absurd heq (by simp)
    · rename_i r1 heq
      injection heq with hc hr
      exact (hne r1 hc hr).elim
    · rename_i cc cr hne2 heq
      injection heq with hc hr
      subst hc
      subst hr
      rw [ih h.2]

/-- `pat` has no case-insensitive match starting strictly inside `s`
    when the text continues with `t`. -/
def noCIMatchInside (pat : List Char) : List Char → List Char → Bool
  | [], _ => true
  | c :: s', t => !(stripCI pat (c :: (s' ++ t))).isSome && noCIMatchInside pat s' t

theorem captureUntilCI_boundary (pat s t : List Char) (hpat : pat ≠ [])
    (hin : noCIMatchInside pat s t = true) (hhit : (stripCI pat t).isSome = true) :
    captureUntilCI pat (s ++ t) = some s := by
  induction s with
  | nil =>
    cases t with
    | nil =>
      exfalso
      cases pat with
      | nil => exact hpat rfl
      | cons p ps => simp [stripCI] at hhit
    | cons c cs =>
      rw [List.nil_append, captureUntilCI]
      obtain ⟨r, hr⟩ := Option.isSome_iff_exists.mp hhit
      rw [hr]
  | cons c s' ih =>
    rw [noCIMatchInside, Bool.and_eq_true] at hin
    rw [List.cons_append, captureUntilCI]
    have hnone : stripCI pat (c :: (s' ++ t)) = none := by
      cases hcc : stripCI pat (c :: (s' ++ t)) with
      | none => rfl
      | some r => rw [hcc] at hin; simp at hin
    rw [hnone, ih hin.2]
    rfl

theorem stripCI_append_none (pat : List Char) (hp : pat.all (fun c => c ≠ ']') = true)
    (b' : List Char) :
    ∀ a, stripCI pat a = none → stripCI pat (a ++ ']' :: b') = none := by
  intro a
  induction a generalizing pat with
  | nil =>
    intro hnone
    cases pat with
    | nil => simp [stripCI] at hnone
    | cons p ps =>
      rw [List.nil_append, stripCI]
      have hps : p ≠ ']' := by
        simp only [List.all_cons, Bool.and_eq_true, decide_eq_true_eq] at hp
        exact hp.1
      rw [if_neg (by rw [show toLowerCh ']' = ']' from by decide]; exact fun he => hps he.symm)]
  | cons c a' ih =>
    intro hnone
    cases pat with
    | nil => simp [stripCI] at hnone
    | cons p ps =>
      rw [List.cons_append, stripCI]
      rw [stripCI] at hnone
      by_cases heq : toLowerCh c = p
      · rw [if_pos heq] at hnone ⊢
        have hps : ps.all (fun c => c ≠ ']') = true := by
          simp only [List.all_cons, Bool.and_eq_true] at hp
          exact hp.2
        exact ih ps hps hnone
      · rw [if_neg heq]

theorem noCIMatchInside_of_containsCI_false (pat : List Char)
    (hp : pat.all (fun c => c ≠ ']') = true) (b' : List Char) :
    ∀ s, containsCI pat s = false → noCIMatchInside pat s (']' :: b') = true := by
  intro s
  induction s with
  | nil => intro _; rfl
  | cons c s' ih =>
    intro h
    rw [containsCI, Bool.or_eq_false_iff] at h
    rw [noCIMatchInside, Bool.and_eq_true]
    refine ⟨?_, ih h.2⟩
    have : stripCI pat (c :: s') = none := by
      cases hcc : stripCI pat (c :: s') with
      | none => rfl
      | some r => rw [hcc] at h; simp at h
    have h2 := stripCI_append_none pat hp b' (c :: s') this
    rw [List.cons_append] at h2
    rw [h2]
    rfl

theorem noCIMatchInside_append (pat a b t : List Char)
    (ha : noCIMatchInside pat a (b ++ t) = true) (hb : noCIMatchInside pat b t = true) :
    noCIMatchInside pat (a ++ b) t = true := by
  induction a with
  | nil => simpa using hb
  | cons c a' ih =>
    rw [noCIMatchInside, Bool.and_eq_true] at ha
    rw [List.cons_append, noCIMatchInside, Bool.and_eq_true]
    refine ⟨?_, ih ha.2⟩
    have := ha.1
    rw [show a' ++ (b ++ t) = (a' ++ b) ++ t from (List.append_assoc a' b t).symm] at this
    exact this

theorem dropWhile_head_false {p : Char → Bool} (s : List Char)
    (h : ∀ c, s.head? = some c → p c = false) : List.dropWhile p s = s := by
  cases s with
  | nil => rfl
  | cons c t =>
    rw [List.dropWhile_cons, h c rfl]
    simp

theorem trimChars_id (s : List Char) (h1 : ∀ c, s.head? = some c → isTrimWs c = false)
    (h2 : ∀ c, s.reverse.head? = some c → isTrimWs c = false) : trimChars s = s := by
  rw [trimChars, dropWhile_head_false s h1, dropWhile_head_false s.reverse h2,
    List.reverse_reverse]

/-- The lowercase close tag `</metadata>` (the terminator of the
    extraction regex's lazy capture). -/
def metadataCloseSeq : List Char :=
  '<' :: '/' :: 'm' :: 'e' :: 't' :: 'a' :: 'd' :: 'a' :: 't' :: 'a' :: '>' :: []

theorem stripCdataOpen_append (x : List Char) : stripCdataOpen (cdataOpen ++ x) = x := rfl

theorem stripCdataClose_append (x : List Char) : stripCdataClose (x ++ cdataClose) = x := by
  rw [stripCdataClose]
  have hlen : (x ++ cdataClose).length = x.length + 3 := by simp [cdataClose]
  have hcond : 3 ≤ (x ++ cdataClose).length ∧
      (x ++ cdataClose).drop ((x ++ cdataClose).length - 3) = cdataClose := by
    constructor
    · omega
    · rw [hlen, show x.length + 3 - 3 = x.length from by omega]
      exact List.drop_left x cdataClose
  rw [if_pos hcond, hlen, show x.length + 3 - 3 = x.length from by omega]
  exact List.take_left x cdataClose

theorem safeCdata_head (raw : List Char) : (safeCdata raw).head? = some '<' := rfl

theorem safeCdata_last (raw : List Char) : (safeCdata raw).reverse.head? = some '>' := by
  rw [safeCdata, show cdataOpen ++ cdataEscape raw ++ cdataClose
    = (cdataOpen ++ cdataEscape raw) ++ cdataClose from by simp]
  rw [List.reverse_append]
  rfl

theorem trim_safeCdata (raw : List Char) : trimChars (safeCdata raw) = safeCdata raw := by
  apply trimChars_id
  · intro c hc
    rw [safeCdata_head raw] at hc
    rw [← Option.some.inj hc]
    decide
  · intro c hc
    rw [safeCdata_last raw] at hc
    rw [← Option.some.inj hc]
    decide

/-- Extraction of the embedded metadata body (the regex capture) from
    the `<metadata>` element, when the body does not imitate a close
    tag internally. -/
theorem extract_meta_of_embed (raw : List Char)
    (h2 : noCIMatchInside metadataCloseSeq (safeCdata raw) metadataCloseSeq = true) :
    extractBetweenTag ('m' :: 'e' :: 't' :: 'a' :: 'd' :: 'a' :: 't' :: 'a' :: [])
      (metadataElement raw) = some (safeCdata raw) := by
  have hstep : extractBetweenTag ('m' :: 'e' :: 't' :: 'a' :: 'd' :: 'a' :: 't' :: 'a' :: [])
      (metadataElement raw)
    = (match captureUntilCI metadataCloseSeq (safeCdata raw ++ metadataCloseSeq) with
      | none => none
      | some g => if trimChars g = [] then none else some (trimChars g)) := rfl
  rw [hstep, captureUntilCI_boundary metadataCloseSeq (safeCdata raw) metadataCloseSeq
    (by decide) h2 (by decide)]
  show (if trimChars (safeCdata raw) = [] then none else some (trimChars (safeCdata raw)))
    = some (safeCdata raw)
  rw [trim_safeCdata raw]
  rw [if_neg (by rw [safeCdata]; simp [cdataOpen])]

/-- The internal-close-tag condition follows from the serialized payload
    containing no `]]>` and no case-insensitive `</metadata>`. -/
theorem noCIMatch_of_clean (raw : List Char)
    (h1 : containsSeq cdataClose raw = false)
    (h2 : containsCI metadataCloseSeq raw = false) :
    noCIMatchInside metadataCloseSeq (safeCdata raw) metadataCloseSeq = true := by
  have hesc : cdataEscape raw = raw := cdataEscape_id raw h1
  rw [safeCdata, hesc]
  have hp : metadataCloseSeq.all (fun c => c ≠ ']') = true := by decide
  have hraw : noCIMatchInside metadataCloseSeq raw (cdataClose ++ metadataCloseSeq) = true := by
    have := noCIMatchInside_of_containsCI_false metadataCloseSeq hp
      (']' :: '>' :: metadataCloseSeq) raw h2
    rw [show cdataClose ++ metadataCloseSeq = ']' :: (']' :: '>' :: metadataCloseSeq) from rfl]
    exact this
  have hclose : noCIMatchInside metadataCloseSeq cdataClose metadataCloseSeq = true := by decide
  have hopen : noCIMatchInside metadataCloseSeq cdataOpen
      ((raw ++ cdataClose) ++ metadataCloseSeq) = true := rfl
  have hb : noCIMatchInside metadataCloseSeq (raw ++ cdataClose) metadataCloseSeq = true :=
    noCIMatchInside_append metadataCloseSeq raw cdataClose metadataCloseSeq hraw hclose
  exact noCIMatchInside_append metadataCloseSeq cdataOpen (raw ++ cdataClose) metadataCloseSeq
    hopen hb

theorem parseEmbeddedJson_via_meta (svg g : List Char) (v : JVal)
    (hext : extractBetweenTag ('m' :: 'e' :: 't' :: 'a' :: 'd' :: 'a' :: 't' :: 'a' :: []) svg
      = some g)
    (hp : parseJson (trimChars (stripCdataClose (stripCdataOpen g))) = some v)
    (hrec : isRecordJ v = true) :
    parseEmbeddedJson svg = some v := by
  have hv : viaMetaBlock svg = some v := by
    simp only [viaMetaBlock, metaCapture, hext]
    show (parseJson (trimChars (stripCdataClose (stripCdataOpen g)))).bind (fun w =>
        if isRecordJ w then some w else none) = some v
    rw [hp]
    show (if isRecordJ v then some v else none) = some v
    rw [hrec]
    rfl
  simp only [parseEmbeddedJson, hv]
  rfl

theorem stringify_obj_shape (kvs : List (String × JVal)) (raw : List Char)
    (hs : stringifyVal (.obj kvs) = some raw) :
    raw = '{' :: joinComma (stringifyMembers kvs) ++ ['}'] :=
  (Option.some.inj hs).symm

theorem trim_obj_raw (kvs : List (String × JVal)) (raw : List Char)
    (hs : stringifyVal (.obj kvs) = some raw) : trimChars raw = raw := by
  have hraw := stringify_obj_shape kvs raw hs
  apply trimChars_id
  · intro c hc
    rw [hraw] at hc
    rw [show ('{' :: joinComma (stringifyMembers kvs) ++ ['}']).head? = some '{' from rfl] at hc
    rw [← Option.some.inj hc]
    decide
  · intro c hc
    rw [hraw, show ('{' :: joinComma (stringifyMembers kvs) ++ ['}'])
      = ('{' :: joinComma (stringifyMembers kvs)) ++ ['}'] from by simp,
      List.reverse_append] at hc
    rw [show ((['}'] : List Char).reverse
        ++ ('{' :: joinComma (stringifyMembers kvs)).reverse).head? = some '}' from rfl] at hc
    rw [← Option.some.inj hc]
    decide

/-- C1 (amended): for every `undefined`-free object payload whose JSON
    serialization contains neither the raw sequence `]]>` nor a
    case-insensitive occurrence of `</metadata>`, extracting the
    `<metadata>` block that `buildSvg` embeds (the serialized payload
    wrapped by `safeCdata`) with `parseEmbeddedJson` recovers exactly
    the original payload: `parse(embed(payload)) = payload`, with no
    field loss and all decimal-string micro quantities preserved. -/
theorem C1_metadata_roundtrip_amended (kvs : List (String × JVal)) (raw : List Char)
    (hnu : noUndefV (.obj kvs) = true)
    (hs : stringifyVal (.obj kvs) = some raw)
    (h1 : containsSeq cdataClose raw = false)
    (h2 : containsCI metadataCloseSeq raw = false) :
    parseEmbeddedJson (metadataElement raw) = some (.obj kvs) := by
  apply parseEmbeddedJson_via_meta _ (safeCdata raw)
  · exact extract_meta_of_embed raw (noCIMatch_of_clean raw h1 h2)
  · have hesc : cdataEscape raw = raw := cdataEscape_id raw h1
    have hsplit : safeCdata raw = cdataOpen ++ (raw ++ cdataClose) := by
      rw [safeCdata, hesc, List.append_assoc]
    rw [hsplit, stripCdataOpen_append, stripCdataClose_append, trim_obj_raw kvs raw hs]
    exact parseJson_stringify _ raw hnu hs
  · rfl

theorem C1_metadata_roundtrip_amended_witness :
    parseEmbeddedJson (metadataElement
      ((stringifyVal (JVal.obj [("userPhiKey", JVal.str "abc"), ("sharesMicro",
        JVal.str "2000000")])).getD []))
      = some (JVal.obj [("userPhiKey", JVal.str "abc"), ("sharesMicro",
        JVal.str "2000000")]) :=
  C1_metadata_roundtrip_amended
    [("userPhiKey", JVal.str "abc"), ("sharesMicro", JVal.str "2000000")] _
    (by decide) rfl (by decide) (by decide)

/-- A full-shape SM-POS-1 payload (the object `makePayload` produces)
    whose `userPhiKey` contains the character sequence `]]>`. -/
def cePayload : JVal :=
  .obj
    [("v", .str "SM-POS-1"),
     ("kind", .str "position"),
     ("userPhiKey", .str "phikey-]]>-alpha"),
     ("kaiSignature", .str "kai-sig-1"),
     ("marketId", .str "mkt-1"),
     ("positionId", .str "pos-1"),
     ("side", .str "YES"),
     ("lockedStakeMicro", .str "1000000"),
     ("sharesMicro", .str "2000000"),
     ("avgPriceMicro", .str "500000"),
     ("worstPriceMicro", .str "600000"),
     ("feeMicro", .str "10000"),
     ("totalCostMicro", .str "1010000"),
     ("vaultId", .str "vault-1"),
     ("lockId", .str "lock-1"),
     ("openedAt", .obj [("pulse", .num 12345), ("beat", .num 3), ("stepIndex", .num 7)]),
     ("venue", .str "SigilMarkets"),
     ("marketDefinitionHash", .str "abc123"),
     ("label", .str "Position YES")]

/-- C1 counterexample: for the valid position payload `cePayload`
    (whose `userPhiKey` contains `]]>`), parsing the embedded metadata
    block does NOT recover the original payload — `safeCdata`'s CDATA
    splitting corrupts the stored value, and the reader's single
    prefix/suffix strip cannot undo it. -/
theorem C1_counterexample :
    (stringifyVal cePayload).isSome = true ∧
    parseEmbeddedJson (metadataElement ((stringifyVal cePayload).getD []))
      ≠ some cePayload := by
  refine ⟨rfl, fun h => absurd (congrArg (fun o => o.bind stringifyVal) h) ?_⟩
  decide

/- ────────────────────────────────────────────────────────────
   C5: key-order invariance of the canonicalizer.
   ──────────────────────────────────────────────────────────── -/

theorem ltChars_irrefl (s : List Char) : ltChars s s = false := by
  induction s with
  | nil => rfl
  | cons c r ih =>
    show (if c.toNat < c.toNat then true else if c.toNat < c.toNat then false
      else ltChars r r) = false
    rw [if_neg (Nat.lt_irrefl _), if_neg (Nat.lt_irrefl _), ih]

theorem ltChars_trans (a b c : List Char) (h₁ : ltChars a b = true)
    (h₂ : ltChars b c = true) : ltChars a c = true := by
  induction a generalizing b c with
  | nil =>
    cases b with
    | nil => exact absurd h₁ (by simp [ltChars])
    | cons y bs =>
      cases c with
      | nil => exact absurd h₂ (by simp [ltChars])
      | cons z cs => rfl
  | cons x as ih =>
    cases b with
    | nil => exact absurd h₁ (by simp [ltChars])
    | cons y bs =>
      cases c with
      | nil => exact absurd h₂ (by simp [ltChars])
      | cons z cs =>
        show (if x.toNat < z.toNat then true else if z.toNat < x.toNat then false
          else ltChars as cs) = true
        rw [show ltChars (x :: as) (y :: bs) = (if x.toNat < y.toNat then true
          else if y.toNat < x.toNat then false else ltChars as bs) from rfl] at h₁
        rw [show ltChars (y :: bs) (z :: cs) = (if y.toNat < z.toNat then true
          else if z.toNat < y.toNat then false else ltChars bs cs) from rfl] at h₂
        by_cases hxy : x.toNat < y.toNat
        · by_cases hyz : y.toNat < z.toNat
          · have hc : x.toNat < z.toNat := by omega
            rw [if_pos hc]
          · rw [if_neg hyz] at h₂
            by_cases hzy : z.toNat < y.toNat
            · rw [if_pos hzy] at h₂
              exact absurd h₂ (by simp)
            · have hc : x.toNat < z.toNat := by omega
              rw [if_pos hc]
        · rw [if_neg hxy] at h₁
          by_cases hyx : y.toNat < x.toNat
          · rw [if_pos hyx] at h₁
            exact absurd h₁ (by simp)
          · rw [if_neg hyx] at h₁
            by_cases hyz : y.toNat < z.toNat
            · have hc : x.toNat < z.toNat := by omega
              rw [if_pos hc]
            · rw [if_neg hyz] at h₂
              by_cases hzy : z.toNat < y.toNat
              · rw [if_pos hzy] at h₂
                exact absurd h₂ (by simp)
              · rw [if_neg hzy] at h₂
                have hc1 : ¬ x.toNat < z.toNat := by omega
                have hc2 : ¬ z.toNat < x.toNat := by omega
                rw [if_neg hc1, if_neg hc2]
                exact ih bs cs h₁ h₂

theorem ltChars_conn (a b : List Char) (h₁ : ltChars a b = false)
    (h₂ : ltChars b a = false) : a = b := by
  induction a generalizing b with
  | nil =>
    cases b with
    | nil => rfl
    | cons y bs => exact absurd h₁ (by simp [ltChars])
  | cons x as ih =>
    cases b with
    | nil => exact absurd h₂ (by simp [ltChars])
    | cons y bs =>
      rw [show ltChars (x :: as) (y :: bs) = (if x.toNat < y.toNat then true
        else if y.toNat < x.toNat then false else ltChars as bs) from rfl] at h₁
      rw [show ltChars (y :: bs) (x :: as) = (if y.toNat < x.toNat then true
        else if x.toNat < y.toNat then false else ltChars bs as) from rfl] at h₂
      by_cases hxy : x.toNat < y.toNat
      · rw [if_pos hxy] at h₁
        exact absurd h₁ (by simp)
      · by_cases hyx : y.toNat < x.toNat
        · rw [if_pos hyx] at h₂
          exact absurd h₂ (by simp)
        · rw [if_neg hxy, if_neg hyx] at h₁
          rw [if_neg hyx, if_neg hxy] at h₂
          have hn : x.toNat = y.toNat := by omega
          have hc : x = y := Char.ofNat_toNat x ▸ Char.ofNat_toNat y ▸ congrArg Char.ofNat hn
          rw [hc, ih bs h₁ h₂]

theorem ltStr_irrefl (s : String) : ltStr s s = false := ltChars_irrefl _

theorem ltStr_trans (a b c : String) (h₁ : ltStr a b = true) (h₂ : ltStr b c = true) :
    ltStr a c = true := ltChars_trans _ _ _ h₁ h₂

theorem ltStr_conn (a b : String) (h₁ : ltStr a b = false) (h₂ : ltStr b a = false) :
    a = b := by
  cases a with
  | mk da =>
    cases b with
    | mk db =>
      rw [show ltStr ⟨da⟩ ⟨db⟩ = ltChars da db from rfl] at h₁
      rw [show ltStr ⟨db⟩ ⟨da⟩ = ltChars db da from rfl] at h₂
      rw [ltChars_conn da db h₁ h₂]

theorem ltStr_asymm (a b : String) (h : ltStr a b = true) : ltStr b a = false := by
  cases hba : ltStr b a with
  | false => rfl
  | true =>
    have := ltStr_trans a b a h hba
    rw [ltStr_irrefl] at this
    exact absurd this (by simp)

theorem insertByKey_perm {α : Type} (p : String × α) (l : List (String × α)) :
    List.Perm (insertByKey p l) (p :: l) := by
  induction l with
  | nil => exact List.Perm.refl _
  | cons q r ih =>
    simp only [insertByKey]
    split
    · exact List.Perm.refl _
    · exact (List.Perm.cons q ih).trans (List.Perm.swap p q r)

theorem sortByKey_perm {α : Type} (l : List (String × α)) : List.Perm (sortByKey l) l := by
  induction l with
  | nil => exact List.Perm.refl _
  | cons p r ih =>
    rw [sortByKey, List.foldr_cons]
    exact (insertByKey_perm p _).trans (List.Perm.cons p ih)

theorem insertByKey_sorted {α : Type} (p : String × α) (l : List (String × α))
    (h : List.Pairwise (fun a b => ltStr b.1 a.1 = false) l) :
    List.Pairwise (fun a b => ltStr b.1 a.1 = false) (insertByKey p l) := by
  induction l with
  | nil => simp [insertByKey]
  | cons q r ih =>
    rw [List.pairwise_cons] at h
    simp only [insertByKey]
    split
    · rename_i hlt
      rw [List.pairwise_cons]
      refine ⟨?_, List.pairwise_cons.mpr h⟩
      intro x hx
      rcases List.mem_cons.mp hx with rfl | hx'
      · exact ltStr_asymm _ _ hlt
      · cases hxp : ltStr x.1 p.1 with
        | false => rfl
        | true =>
          have htr := ltStr_trans _ _ _ hxp hlt
          rw [h.1 x hx'] at htr
          exact absurd htr (by simp)
    · rename_i hnlt
      rw [List.pairwise_cons]
      refine ⟨?_, ih h.2⟩
      intro x hx
      rcases List.mem_cons.mp ((insertByKey_perm p r).mem_iff.mp hx) with rfl | hx'
      · simpa using hnlt
      · exact h.1 x hx'

theorem sortByKey_sorted {α : Type} (l : List (String × α)) :
    List.Pairwise (fun a b => ltStr b.1 a.1 = false) (sortByKey l) := by
  induction l with
  | nil => simp [sortByKey]
  | cons p r ih =>
    rw [sortByKey, List.foldr_cons]
    exact insertByKey_sorted p _ ih

theorem sortByKey_strict {α : Type} (l : List (String × α))
    (hnd : (l.map Prod.fst).Nodup) :
    List.Pairwise (fun a b : String × α => ltStr a.1 b.1 = true) (sortByKey l) := by
  have hs := sortByKey_sorted l
  have hnd' : ((sortByKey l).map Prod.fst).Nodup :=
    ((sortByKey_perm l).map Prod.fst).nodup_iff.mpr hnd
  rw [List.Nodup, List.pairwise_map] at hnd'
  refine (hs.and hnd').imp ?_
  intro a b hab
  cases hlt : ltStr a.1 b.1 with
  | true => rfl
  | false => exact absurd (ltStr_conn _ _ hlt hab.1) hab.2

theorem sortByKey_eq_of_perm {α : Type} (l₁ l₂ : List (String × α))
    (hp : List.Perm l₁ l₂) (hnd : (l₁.map Prod.fst).Nodup) :
    sortByKey l₁ = sortByKey l₂ := by
  have hnd₂ : (l₂.map Prod.fst).Nodup := (hp.map Prod.fst).nodup_iff.mp hnd
  have hp' : List.Perm (sortByKey l₁) (sortByKey l₂) :=
    (sortByKey_perm l₁).trans (hp.trans (sortByKey_perm l₂).symm)
  letI : IsAntisymm (String × α) (fun a b => ltStr a.1 b.1 = true) :=
    ⟨fun a b hab hba => absurd hba (by rw [ltStr_asymm _ _ hab]; simp)⟩
  exact List.eq_of_perm_of_sorted hp' (sortByKey_strict l₁ hnd) (sortByKey_strict l₂ hnd₂)

/- "x and y differ only in object key insertion order": scalars equal,
   arrays pointwise related in order, objects related by a permutation
   of the member list with keys fixed and values related recursively. -/
mutual

def kpV : JVal → JVal → Prop
  | .arr xs, .arr ys => kpL xs ys
  | .obj kvs, .obj kvs' => ∃ mid, kpPairs kvs mid ∧ List.Perm mid kvs'
  | a, b => a = b

def kpL : List JVal → List JVal → Prop
  | [], [] => True
  | x :: xs, y :: ys => kpV x y ∧ kpL xs ys
  | _, _ => False

def kpPairs : List (String × JVal) → List (String × JVal) → Prop
  | [], [] => True
  | (k, v) :: r, (k', v') :: m => k = k' ∧ kpV v v' ∧ kpPairs r m
  | _, _ => False

end

theorem toJsonMembers_map (kvs : List (String × JVal)) :
    toJsonMembers kvs = kvs.map (fun p => (p.1, toJsonValue p.2)) := by
  induction kvs with
  | nil => rfl
  | cons p r ih =>
    cases p with
    | mk k v =>
      show (k, toJsonValue v) :: toJsonMembers r = _
      rw [ih]
      rfl

theorem kpPairs_keys (kvs : List (String × JVal)) :
    ∀ mid, kpPairs kvs mid → kvs.map Prod.fst = mid.map Prod.fst := by
  induction kvs with
  | nil =>
    intro mid h
    cases mid with
    | nil => rfl
    | cons q m => exact (show False from h).elim
  | cons p r ih =>
    intro mid h
    cases mid with
    | nil => exact (show False from h).elim
    | cons q m =>
      cases p with
      | mk k v =>
        cases q with
        | mk k' v' =>
          obtain ⟨hk, _, hrest⟩ := (show k = k' ∧ kpV v v' ∧ kpPairs r m from h)
          show k :: r.map Prod.fst = k' :: m.map Prod.fst
          rw [hk, ih m hrest]

mutual

theorem tjV (x y : JVal) (hkp : kpV x y) (hnd : nodupKeysV x = true) :
    toJsonValue x = toJsonValue y := by
  cases x with
  | null => rw [← show JVal.null = y from hkp]
  | undefined => rw [← show JVal.undefined = y from hkp]
  | bool b => rw [← show JVal.bool b = y from hkp]
  | num n => rw [← show JVal.num n = y from hkp]
  | str s => rw [← show JVal.str s = y from hkp]
  | arr xs =>
    cases y
    case arr ys =>
      show JVal.arr (toJsonItems xs) = JVal.arr (toJsonItems ys)
      rw [tjL xs ys hkp hnd]
    all_goals simp only [kpV] at hkp
    all_goals simp at hkp
  | obj kvs =>
    cases y
    case obj kvs' =>
      obtain ⟨mid, hpq, hperm⟩ :=
        (show ∃ mid, kpPairs kvs mid ∧ List.Perm mid kvs' from hkp)
      have hnd' : ((kvs.map Prod.fst).Nodup : Bool) = true ∧ nodupKeysM kvs = true := by
        have hh : (((kvs.map Prod.fst).Nodup : Bool) && nodupKeysM kvs) = true := hnd
        exact (Bool.and_eq_true _ _) ▸ hh
      have hnd1 : (kvs.map Prod.fst).Nodup := by
        have := hnd'.1
        simpa using this
      have hm : toJsonMembers kvs = toJsonMembers mid := tjP kvs mid hpq hnd'.2
      have hperm' : List.Perm (toJsonMembers mid) (toJsonMembers kvs') := by
        rw [toJsonMembers_map, toJsonMembers_map]
        exact hperm.map _
      have hndm : ((toJsonMembers mid).map Prod.fst).Nodup := by
        rw [toJsonMembers_map, List.map_map]
        rw [show (Prod.fst ∘ fun p : String × JVal => (p.1, toJsonValue p.2))
          = Prod.fst from rfl]
        rw [← kpPairs_keys kvs mid hpq]
        exact hnd1
      show JVal.obj (sortByKey (toJsonMembers kvs)) = JVal.obj (sortByKey (toJsonMembers kvs'))
      rw [hm, sortByKey_eq_of_perm _ _ hperm' hndm]
    all_goals simp only [kpV] at hkp
    all_goals simp at hkp

theorem tjL (xs ys : List JVal) (h : kpL xs ys) (hnd : nodupKeysL xs = true) :
    toJsonItems xs = toJsonItems ys := by
  cases xs with
  | nil =>
    cases ys with
    | nil => rfl
    | cons y ys' => exact (show False from h).elim
  | cons x xs' =>
    cases ys with
    | nil => exact (show False from h).elim
    | cons y ys' =>
      obtain ⟨h1, h2⟩ := (show kpV x y ∧ kpL xs' ys' from h)
      have hnd' : nodupKeysV x = true ∧ nodupKeysL xs' = true := by
        have hh : (nodupKeysV x && nodupKeysL xs') = true := hnd
        exact (Bool.and_eq_true _ _) ▸ hh
      show toJsonValue x :: toJsonItems xs' = toJsonValue y :: toJsonItems ys'
      rw [tjV x y h1 hnd'.1, tjL xs' ys' h2 hnd'.2]

theorem tjP (kvs mid : List (String × JVal)) (h : kpPairs kvs mid)
    (hnd : nodupKeysM kvs = true) : toJsonMembers kvs = toJsonMembers mid := by
  cases kvs with
  | nil =>
    cases mid with
    | nil => rfl
    | cons q m => exact (show False from h).elim
  | cons p r =>
    cases mid with
    | nil => exact (show False from h).elim
    | cons q m =>
      cases p with
      | mk k v =>
        cases q with
        | mk k' v' =>
          obtain ⟨hk, hv, hrest⟩ := (show k = k' ∧ kpV v v' ∧ kpPairs r m from h)
          have hnd' : nodupKeysV v = true ∧ nodupKeysM r = true := by
            have hh : (nodupKeysV v && nodupKeysM r) = true := hnd
            exact (Bool.and_eq_true _ _) ▸ hh
          show (k, toJsonValue v) :: toJsonMembers r = (k', toJsonValue v') :: toJsonMembers m
          rw [hk, tjV v v' hv hnd'.1, tjP r m hrest hnd'.2]

end

/-- C5: the canonicalizer is invariant under permutation of object key
    insertion order: for two non-cyclic structured values that differ
    only in key order (`kpV`, at any depth) with duplicate-free keys,
    `toJsonValue` returns the same CanonicalValue, so the canonical
    serialization `stableStringify (toJsonValue x)` is the identical
    string (keys emitted sorted ascending, array order preserved). -/
theorem C5_key_order_invariance (x y : JVal) (hkp : kpV x y)
    (hnd : nodupKeysV x = true) :
    toJsonValue x = toJsonValue y ∧
    stableStringify (toJsonValue x) = stableStringify (toJsonValue y) := by
  have h := tjV x y hkp hnd
  exact ⟨h, by rw [h]⟩

theorem C5_key_order_invariance_witness :
    toJsonValue (JVal.obj [("b", JVal.num 1), ("a", JVal.num 2)])
      = toJsonValue (JVal.obj [("a", JVal.num 2), ("b", JVal.num 1)]) ∧
    stableStringify (toJsonValue (JVal.obj [("b", JVal.num 1), ("a", JVal.num 2)]))
      = stableStringify (toJsonValue (JVal.obj [("a", JVal.num 2), ("b", JVal.num 1)])) :=
  C5_key_order_invariance _ _
    ⟨[("b", JVal.num 1), ("a", JVal.num 2)], ⟨rfl, rfl, rfl, rfl, trivial⟩,
      List.Perm.swap _ _ _⟩
    (by decide)

/- ────────────────────────────────────────────────────────────
   C3: totality of the canonicalizer on object graphs.
   `toJsonValue` (PositionSigilMint.tsx lines 117-127) recurses into
   arrays and records with no visited-set and no cycle check, so it is
   modelled over an explicit heap (JS object identity): evaluation is
   fuel-indexed, one unit of fuel per recursive `toJsonValue` call
   (= one JS stack frame).
   ──────────────────────────────────────────────────────────── -/

inductive HVal where
  | null
  | undefined
  | bool (b : Bool)
  | num (n : Int)
  | str (s : String)
  | ref (a : Nat)
deriving DecidableEq

inductive HNode where
  | harr (xs : List HVal)
  | hobj (kvs : List (String × HVal))
deriving DecidableEq

abbrev Heap : Type := List HNode

def mapOpt {α β : Type} (f : α → Option β) : List α → Option (List β)
  | [] => some []
  | x :: r =>
    match f x, mapOpt f r with
    | some y, some ys => some (y :: ys)
    | _, _ => none

/-- Heap evaluator for `toJsonValue`: primitives pass through, `undefined`
    falls to `String(v)`, a reference is dereferenced and its array
    elements / record members are converted by recursive calls (each one
    JS stack frame deeper); object keys are sorted ascending. `none` means
    the call-depth budget is exhausted — the source has no cycle handling,
    so on a cyclic graph every budget is exhausted. -/
def toJsonValueH : Nat → Heap → HVal → Option JVal
  | 0, _, _ => none
  | fuel + 1, H, v =>
    match v with
    | .null => some .null
    | .undefined => some (.str "undefined")
    | .bool b => some (.bool b)
    | .num n => some (.num n)
    | .str s => some (.str s)
    | .ref a =>
      match H[a]? with
      | none => none
      | some (.harr xs) => (mapOpt (toJsonValueH fuel H) xs).map JVal.arr
      | some (.hobj kvs) =>
        (mapOpt (fun p : String × HVal =>
          (toJsonValueH fuel H p.2).map (fun j => (p.1, j))) kvs).map
          (fun ms => .obj (sortByKey ms))

/-- Call-depth bound: `rankB n H v` holds when every chain of
    dereferences from `v` exhausts within `n` frames — i.e. the graph
    reachable from `v` is acyclic and of depth below `n`. -/
def rankB : Nat → Heap → HVal → Bool
  | 0, _, _ => false
  | fuel + 1, H, v =>
    match v with
    | .ref a =>
      match H[a]? with
      | none => false
      | some (.harr xs) => xs.all (rankB fuel H)
      | some (.hobj kvs) => kvs.all (fun p => rankB fuel H p.2)
    | _ => true

/-- Divergence of the canonicalizer on a heap value: every call-depth
    budget is exhausted (the JS recursion never returns — it dies by
    stack overflow, producing no value and no sentinel). -/
def divergesH (H : Heap) (v : HVal) : Prop :=
  ∀ fuel, toJsonValueH fuel H v = none

/-- The one-object cyclic heap: `const a = {}; a.self = a`. -/
def cyclicHeap : Heap :=
  [HNode.hobj [("self", HVal.ref 0)]]

theorem mapOpt_isSome {α β : Type} (f : α → Option β) (xs : List α)
    (h : ∀ x ∈ xs, (f x).isSome = true) : (mapOpt f xs).isSome = true := by
  induction xs with
  | nil => rfl
  | cons x r ih =>
    have hx := h x (by simp)
    have hr := ih (fun y hy => h y (by simp [hy]))
    rw [mapOpt]
    obtain ⟨y, hy⟩ := Option.isSome_iff_exists.mp hx
    obtain ⟨ys, hys⟩ := Option.isSome_iff_exists.mp hr
    rw [hy, hys]
    rfl

/-- C3 counterexample: on the cyclic object graph `a.self = a` the
    canonicalizer diverges — for every call-depth budget it fails to
    return, so it neither terminates nor produces a sentinel marker. -/
theorem C3_counterexample : divergesH cyclicHeap (HVal.ref 0) := by
  intro fuel
  induction fuel with
  | zero => rfl
  | succ f ih =>
    show (mapOpt (fun p : String × HVal =>
        (toJsonValueH f cyclicHeap p.2).map (fun j => (p.1, j)))
        [("self", HVal.ref 0)]).map
        (fun ms => JVal.obj (sortByKey ms)) = none
    rw [mapOpt]
    rw [show (toJsonValueH f cyclicHeap ("self", HVal.ref 0).2).map
      (fun j => (("self", HVal.ref 0).1, j))
      = (toJsonValueH f cyclicHeap (HVal.ref 0)).map (fun j => ("self", j)) from rfl]
    rw [ih]
    rfl

/-- C3 (amended): the canonicalizer is total exactly on bounded-depth
    (in particular acyclic) object graphs: whenever every dereference
    chain from `v` exhausts within the call budget (`rankB`), evaluation
    returns a CanonicalValue without failing. On cyclic graphs no budget
    suffices (`C3_counterexample`) — there is no sentinel fallback. -/
theorem C3_canonicalize_total_amended (n : Nat) (H : Heap) (v : HVal)
    (h : rankB n H v = true) : (toJsonValueH n H v).isSome = true := by
  induction n generalizing v with
  | zero => exact absurd h (by rw [rankB]; simp)
  | succ f ih =>
    cases v with
    | null => rfl
    | undefined => rfl
    | bool b => rfl
    | num n => rfl
    | str s => rfl
    | ref a =>
      rw [show rankB (f + 1) H (.ref a) = (match H[a]? with
        | none => false
        | some (.harr xs) => xs.all (rankB f H)
        | some (.hobj kvs) => kvs.all (fun p => rankB f H p.2)) from rfl] at h
      rw [show toJsonValueH (f + 1) H (.ref a) = (match H[a]? with
        | none => none
        | some (.harr xs) => (mapOpt (toJsonValueH f H) xs).map JVal.arr
        | some (.hobj kvs) =>
          (mapOpt (fun p : String × HVal =>
            (toJsonValueH f H p.2).map (fun j => (p.1, j))) kvs).map
            (fun ms => JVal.obj (sortByKey ms))) from rfl]
      cases hnode : H[a]? with
      | none => rw [hnode] at h; exact absurd h (by simp)
      | some node =>
        rw [hnode] at h
        cases node with
        | harr xs =>
          have hall := List.all_eq_true.mp h
          have hsome := mapOpt_isSome (toJsonValueH f H) xs
            (fun x hx => ih x (hall x hx))
          obtain ⟨ys, hys⟩ := Option.isSome_iff_exists.mp hsome
          show ((mapOpt (toJsonValueH f H) xs).map JVal.arr).isSome = true
          rw [hys]
          rfl
        | hobj kvs =>
          have hall := List.all_eq_true.mp h
          have hsome := mapOpt_isSome (fun p : String × HVal =>
              (toJsonValueH f H p.2).map (fun j => (p.1, j))) kvs
            (fun p hp => by
              have hv := ih p.2 (hall p hp)
              obtain ⟨j, hj⟩ := Option.isSome_iff_exists.mp hv
              show ((toJsonValueH f H p.2).map (fun j => (p.1, j))).isSome = true
              rw [hj]
              rfl)
          obtain ⟨ms, hms⟩ := Option.isSome_iff_exists.mp hsome
          show ((mapOpt (fun p : String × HVal =>
            (toJsonValueH f H p.2).map (fun j => (p.1, j))) kvs).map
            (fun ms => JVal.obj (sortByKey ms))).isSome = true
          rw [hms]
          rfl

theorem C3_canonicalize_total_amended_witness :
    rankB 2 [HNode.hobj [("a", HVal.num 1)]] (HVal.ref 0) = true ∧
    (toJsonValueH 2 [HNode.hobj [("a", HVal.num 1)]] (HVal.ref 0)).isSome = true :=
  ⟨by decide, C3_canonicalize_total_amended 2 [HNode.hobj [("a", HVal.num 1)]]
    (HVal.ref 0) (by decide)⟩

/- ────────────────────────────────────────────────────────────
   C6: the xorshift32 generators.
   PositionSigilMint.tsx lines 88-96 and ResolutionSigilMint.tsx lines
   49-57 share the recurrence `x ^= x<<13; x ^= x>>>17; x ^= x<<5`; the
   Position variant normalizes by `/ 4294967296` (= 2^32) and the
   Resolution variant by `/ 0xffffffff` (= 2^32 - 1).  JS `ToInt32`/
   `ToUint32` wrapping acts on 32-bit lanes, and xor/shift commute with
   taking the low 32 bits, so the state is a `Nat` masked to 32 bits.
   ──────────────────────────────────────────────────────────── -/

/-- One step of the xorshift32 recurrence. -/
def xs32 (x : Nat) : Nat :=
  let a := (x ^^^ (x <<< 13)) % 4294967296
  let b := a ^^^ (a >>> 17)
  (b ^^^ (b <<< 5)) % 4294967296

/-- Generator state after `n` steps from `seed >>> 0`. -/
def xsIter : Nat → Nat → Nat
  | 0, seed => seed % 4294967296
  | n + 1, seed => xs32 (xsIter n seed)

/-- The `n`-th value of the Position-mint generator (`makeRng`,
    PositionSigilMint.tsx line 94: `(x >>> 0) / 4294967296`). -/
def posRngOut (seed n : Nat) : ℚ :=
  (xsIter (n + 1) seed : ℚ) / 4294967296

/-- The `n`-th value of the Resolution-mint generator (`makeRng`,
    ResolutionSigilMint.tsx line 55: `(x >>> 0) / 0xffffffff`). -/
def resRngOut (seed n : Nat) : ℚ :=
  (xsIter (n + 1) seed : ℚ) / 4294967295

theorem xs32_lt (x : Nat) : xs32 x < 4294967296 := by
  rw [xs32]
  exact Nat.mod_lt _ (by norm_num)

/-- C6 counterexample: the Resolution-mint generator divides by
    `0xffffffff` = 2^32 - 1, not 2^32; from seed 1584200935 the first
    state is exactly 0xffffffff, so the first output equals 1.0 —
    outside the claimed half-open interval [0,1). -/
theorem C6_counterexample : resRngOut 1584200935 0 = 1 := by
  rw [resRngOut, show xsIter 1 1584200935 = 4294967295 from by decide]
  norm_num

/-- C6 (amended): every value of the Position-mint generator lies in
    [0,1) — the recurrence keeps the 32-bit state below 2^32 and the
    normalization divides by 2^32; the Resolution-mint generator only
    satisfies the closed bound [0,1], with 1.0 attained
    (`C6_counterexample`). -/
theorem C6_rng_range_amended (seed n : Nat) :
    (0 ≤ posRngOut seed n ∧ posRngOut seed n < 1) ∧
    (0 ≤ resRngOut seed n ∧ resRngOut seed n ≤ 1) := by
  have hlt : xsIter (n + 1) seed < 4294967296 := by
    rw [xsIter]
    exact xs32_lt _
  have hle : (xsIter (n + 1) seed : ℚ) ≤ 4294967295 := by
    have : xsIter (n + 1) seed ≤ 4294967295 := by omega
    exact_mod_cast this
  have hnn : (0 : ℚ) ≤ (xsIter (n + 1) seed : ℚ) := by positivity
  refine ⟨⟨?_, ?_⟩, ?_, ?_⟩
  · rw [posRngOut]
    positivity
  · rw [posRngOut]
    rw [div_lt_one (by norm_num)]
    exact_mod_cast hlt
  · rw [resRngOut]
    positivity
  · rw [resRngOut]
    rw [div_le_one (by norm_num)]
    exact hle

/- ────────────────────────────────────────────────────────────
   C8: golden-angle arc layout (`buildGoldenArcs`, PositionSigilMint.tsx
   lines 687-721, with `chunkEvery` lines 669-675 and
   `GOLDEN_ANGLE_DEG` line 99).  The float literal 137.50776405003785 is
   modelled as the exact rational 13750776405003785 / 10^14; the proved
   separation margin (≥ 1°) dwarfs double-rounding error (~1e-13°).
   ──────────────────────────────────────────────────────────── -/

structure Strand where
  label : List Char
  text : List Char
  tone : Nat

/-- Per-tone chunk width (line 698): hi 72, mid 84, low 96. -/
def chunkSize (tone : Nat) : Nat :=
  if tone = 0 then 72 else if tone = 1 then 84 else 96

def chunkEveryGo : Nat → List Char → Nat → List (List Char)
  | 0, s, _ => [s]
  | _, s, 0 => [s]
  | fuel + 1, s, n =>
    if s.length ≤ n then [s] else s.take n :: chunkEveryGo fuel (s.drop n) n

/-- `chunkEvery` (lines 669-675). -/
def chunkEvery (s : List Char) (n : Nat) : List (List Char) :=
  if n = 0 then [s] else chunkEveryGo s.length s n

def radiiLadder : List Nat := [392, 360, 328, 296, 264]

/-- Start angle of chunk `idx` (line 702): `-90 + idx * GOLDEN_ANGLE_DEG`. -/
def arcStart (idx : Nat) : ℚ :=
  -90 + (idx : ℚ) * (13750776405003785 / 100000000000000 : ℚ)

/-- Radius/start pairs for the chunks of one strand, consecutive `idx`. -/
def arcsForChunks (idx : Nat) : List (List Char) → List (Nat × ℚ)
  | [] => []
  | _ :: r => (radiiLadder.getD (idx % 5) 0, arcStart idx) :: arcsForChunks (idx + 1) r

/-- The `buildGoldenArcs` loop: `idx` increments once per emitted chunk
    across all strands; each chunk gets radius `radii[idx % 5]` and
    start `-90 + idx * GOLDEN_ANGLE_DEG`. -/
def buildArcsGo : Nat → List Strand → List (Nat × ℚ)
  | _, [] => []
  | idx, s :: rest =>
    let chunks := chunkEvery (s.label ++ ':' :: ' ' :: s.text) (chunkSize s.tone)
    arcsForChunks idx chunks ++ buildArcsGo (idx + chunks.length) rest

def buildGoldenArcsM (strands : List Strand) : List (Nat × ℚ) :=
  buildArcsGo 0 strands

theorem arcsForChunks_len (chunks : List (List Char)) :
    ∀ idx, (arcsForChunks idx chunks).length = chunks.length := by
  induction chunks with
  | nil => intro idx; rfl
  | cons c r ih =>
    intro idx
    show (arcsForChunks (idx + 1) r).length + 1 = r.length + 1
    rw [ih (idx + 1)]

theorem arcsForChunks_get (chunks : List (List Char)) :
    ∀ idx j, j < chunks.length →
      (arcsForChunks idx chunks).get? j
        = some (radiiLadder.getD ((idx + j) % 5) 0, arcStart (idx + j)) := by
  induction chunks with
  | nil => intro idx j hj; exact absurd hj (by simp)
  | cons c r ih =>
    intro idx j hj
    cases j with
    | zero => rfl
    | succ j' =>
      show (arcsForChunks (idx + 1) r).get? j' = _
      rw [ih (idx + 1) j' (by simpa using hj),
        show idx + 1 + j' = idx + (j' + 1) from by omega]

theorem buildArcsGo_get (strands : List Strand) :
    ∀ idx j, j < (buildArcsGo idx strands).length →
      (buildArcsGo idx strands).get? j
        = some (radiiLadder.getD ((idx + j) % 5) 0, arcStart (idx + j)) := by
  induction strands with
  | nil => intro idx j hj; exact absurd hj (by simp [buildArcsGo])
  | cons s rest ih =>
    intro idx j hj
    have hun : buildArcsGo idx (s :: rest)
        = arcsForChunks idx (chunkEvery (s.label ++ ':' :: ' ' :: s.text) (chunkSize s.tone))
          ++ buildArcsGo
            (idx + (chunkEvery (s.label ++ ':' :: ' ' :: s.text) (chunkSize s.tone)).length)
            rest := rfl
    rw [hun] at hj ⊢
    set chunks := chunkEvery (s.label ++ ':' :: ' ' :: s.text) (chunkSize s.tone) with hch
    by_cases hcase : j < chunks.length
    · rw [List.get?_append (by rw [arcsForChunks_len]; exact hcase)]
      exact arcsForChunks_get chunks idx j hcase
    · push_neg at hcase
      have hlen : (arcsForChunks idx chunks).length = chunks.length := arcsForChunks_len _ _
      rw [List.get?_append_right (by rw [hlen]; exact hcase)]
      rw [List.length_append, hlen] at hj
      have := ih (idx + chunks.length) (j - (arcsForChunks idx chunks).length)
        (by rw [hlen]; omega)
      rw [this, hlen, show idx + chunks.length + (j - chunks.length) = idx + j from by omega]

/-- Distance of `d * A` to the nearest multiple of `B = 360 * 10^14`
    is at least `10^14` (one degree, scaled), for every lag `1 ≤ d ≤ 49`. -/
theorem goldenLagBound :
    ∀ d : Nat, d < 50 → 1 ≤ d →
      100000000000000 ≤ (d * 13750776405003785) % 36000000000000000 ∧
      (d * 13750776405003785) % 36000000000000000 ≤ 35900000000000000 := by
  decide

theorem key_int (d : Nat) (h1 : 1 ≤ d) (h2 : d ≤ 49) (z : ℤ) :
    (100000000000000 : ℤ) ≤ |(d : ℤ) * 13750776405003785 - 36000000000000000 * z| := by
  obtain ⟨hlo, hhi⟩ := goldenLagBound d (by omega) h1
  have hsplit : (d * 13750776405003785 : Nat)
      = 36000000000000000 * ((d * 13750776405003785) / 36000000000000000)
        + (d * 13750776405003785) % 36000000000000000 :=
    (Nat.div_add_mod _ _).symm
  set q : Nat := (d * 13750776405003785) / 36000000000000000 with hq
  set r : Nat := (d * 13750776405003785) % 36000000000000000 with hr
  have hcast : (d : ℤ) * 13750776405003785 = 36000000000000000 * (q : ℤ) + (r : ℤ) := by
    exact_mod_cast congrArg (fun n : Nat => (n : ℤ)) hsplit
  rw [hcast]
  have hrlo : (100000000000000 : ℤ) ≤ (r : ℤ) := by exact_mod_cast hlo
  have hrhi : (r : ℤ) ≤ 35900000000000000 := by exact_mod_cast hhi
  rcases le_or_lt z (q : ℤ) with hz | hz
  · have ht : 0 ≤ (q : ℤ) - z := by omega
    have hbt : 0 ≤ 36000000000000000 * ((q : ℤ) - z) := by positivity
    have hx : 36000000000000000 * (q : ℤ) + (r : ℤ) - 36000000000000000 * z
        = 36000000000000000 * ((q : ℤ) - z) + r := by ring
    rw [hx]
    have : (100000000000000 : ℤ) ≤ 36000000000000000 * ((q : ℤ) - z) + r := by omega
    exact le_trans this (le_abs_self _)
  · have ht : (q : ℤ) - z ≤ -1 := by omega
    have hbt : 36000000000000000 * ((q : ℤ) - z) ≤ 36000000000000000 * (-1) := by
      apply mul_le_mul_of_nonneg_left ht
      norm_num
    have hx : 36000000000000000 * (q : ℤ) + (r : ℤ) - 36000000000000000 * z
        = 36000000000000000 * ((q : ℤ) - z) + r := by ring
    rw [hx]
    have hneg : 36000000000000000 * ((q : ℤ) - z) + r ≤ -100000000000000 := by omega
    have habs : -(36000000000000000 * ((q : ℤ) - z) + r)
        ≤ |36000000000000000 * ((q : ℤ) - z) + r| := neg_le_abs _
    omega

/-- C8: in the `buildGoldenArcs` layout, (i) the `k`-th emitted arc
    (over any strands) has ring radius drawn cyclically from the fixed
    ladder [392,360,328,296,264] and start angle `-90 + k * GOLDEN_ANGLE_DEG`,
    and (ii) any two of the first 50 placements have start angles
    distinct modulo 360° with margin at least 1° (no two coincide
    within a small epsilon). -/
theorem C8_golden_arcs :
    (∀ strands : List Strand, ∀ k, k < (buildGoldenArcsM strands).length →
      (buildGoldenArcsM strands).get? k
        = some (radiiLadder.getD (k % 5) 0, arcStart k)) ∧
    (∀ i j : Nat, i < 50 → j < 50 → i ≠ j → ∀ z : ℤ,
      1 ≤ |arcStart i - arcStart j - 360 * z|) := by
  constructor
  · intro strands k hk
    have := buildArcsGo_get strands 0 k hk
    rw [buildGoldenArcsM]
    rw [this]
    rw [Nat.zero_add]
  · intro i j hi hj hne z
    have hsplit : arcStart i - arcStart j - 360 * z
        = ((((i : ℤ) - (j : ℤ)) * 13750776405003785 - 36000000000000000 * z : ℤ) : ℚ)
          / (100000000000000 : ℚ) := by
      rw [arcStart, arcStart]
      push_cast
      ring
    rw [hsplit, abs_div, show |(100000000000000 : ℚ)| = 100000000000000 from by norm_num,
      one_le_div (by norm_num : (0 : ℚ) < 100000000000000), ← Int.cast_abs]
    have hkey : (100000000000000 : ℤ)
        ≤ |((i : ℤ) - (j : ℤ)) * 13750776405003785 - 36000000000000000 * z| := by
      rcases Nat.lt_or_ge j i with hlt | hge
      · have hd : (i : ℤ) - (j : ℤ) = ((i - j : Nat) : ℤ) := by
          push_cast
          omega
        rw [hd]
        exact key_int (i - j) (by omega) (by omega) z
      · have hlt : j > i := by omega
        have hd : (i : ℤ) - (j : ℤ) = -((j - i : Nat) : ℤ) := by
          push_cast
          omega
        rw [hd]
        have hswap : -((j - i : Nat) : ℤ) * 13750776405003785 - 36000000000000000 * z
            = -(((j - i : Nat) : ℤ) * 13750776405003785 - 36000000000000000 * (-z)) := by
          ring
        rw [hswap, abs_neg]
        exact key_int (j - i) (by omega) (by omega) (-z)
    exact_mod_cast hkey

/- ────────────────────────────────────────────────────────────
   C4 / C7: zk extraction results, merging, and the seal decision
   (PositionSigilMint.tsx: `truthyBool` line 308, `mergePrefer` lines
   392-410, `buildZkSeal` lines 412-496).
   ──────────────────────────────────────────────────────────── -/

structure Groth16Proof where
  pi_a : List String
  pi_b : List (List String)
  pi_c : List String
deriving DecidableEq

/-- The per-source extraction result (`ZkExtract`, lines 310-318): every
    field optional; `verifiedFlag` is `boolean | undefined` in TS. -/
structure ZkExtract where
  canonicalHashHex : Option String
  zkPoseidonHashDec : Option String
  zkProof : Option Groth16Proof
  zkPublicInputs : Option (List String)
  proofHints : Option JVal
  verifiedFlag : Option Bool
  verifiedBy : Option String

/-- `truthyBool` (line 308): `v === true || v === "true" || v === 1 ||
    v === "1"`; `none` models an absent/undefined value. -/
def truthyBool : Option JVal → Bool
  | some (.bool b) => b
  | some (.str s) => s == "true" || s == "1"
  | some (.num n) => n == 1
  | _ => false

/-- The `pickFirst` closure of `mergePrefer` (lines 393-399): the value
    from the earliest source where the field is defined. -/
def pickFirst {β : Type} (get : ZkExtract → Option β) : List ZkExtract → Option β
  | [] => none
  | z :: r =>
    match get z with
    | some v => some v
    | none => pickFirst get r

/-- `mergePrefer` (lines 392-410): `pickFirst` per field, except
    `verifiedFlag`, which is `xs.some((z) => Boolean(z.verifiedFlag))`. -/
def mergePrefer (xs : List ZkExtract) : ZkExtract :=
  ⟨pickFirst (fun z => z.canonicalHashHex) xs,
   pickFirst (fun z => z.zkPoseidonHashDec) xs,
   pickFirst (fun z => z.zkProof) xs,
   pickFirst (fun z => z.zkPublicInputs) xs,
   pickFirst (fun z => z.proofHints) xs,
   some (xs.any (fun z => z.verifiedFlag.getD false)),
   pickFirst (fun z => z.verifiedBy) xs⟩

/-- Declarative "earliest source where the field is defined". -/
def firstDefined {β : Type} (get : ZkExtract → Option β) (xs : List ZkExtract)
    (v : β) : Prop :=
  ∃ i z, xs.get? i = some z ∧ get z = some v ∧
    ∀ k z', k < i → xs.get? k = some z' → get z' = none

theorem pickFirst_eq_iff {β : Type} (get : ZkExtract → Option β)
    (xs : List ZkExtract) (v : β) :
    pickFirst get xs = some v ↔ firstDefined get xs v := by
  induction xs with
  | nil =>
    constructor
    · intro h
      exact absurd h (by simp [pickFirst])
    · intro ⟨i, z, hz, _, _⟩
      exact absurd hz (by simp)
  | cons z r ih =>
    rw [pickFirst]
    cases hz : get z with
    | some w =>
      constructor
      · intro h
        refine ⟨0, z, rfl, ?_, ?_⟩
        · rw [hz]
          exact h
        · intro k z' hk _
          omega
      · intro ⟨i, z', hz', hget, hmin⟩
        cases i with
        | zero =>
          rw [show (z :: r).get? 0 = some z from rfl] at hz'
          rw [← Option.some.inj hz'] at hget
          rw [hz] at hget
          exact hget
        | succ i' =>
          have := hmin 0 z (by omega) rfl
          rw [hz] at this
          exact absurd this (by simp)
    | none =>
      rw [ih]
      constructor
      · intro ⟨i, z', hz', hget, hmin⟩
        refine ⟨i + 1, z', ?_, hget, ?_⟩
        · rw [List.get?_cons_succ]
          exact hz'
        · intro k z'' hk hz''
          cases k with
          | zero =>
            rw [← Option.some.inj (show some z = some z'' from hz'')]
            exact hz
          | succ k' =>
            rw [List.get?_cons_succ] at hz''
            exact hmin k' z'' (by omega) hz''
      · intro ⟨i, z', hz', hget, hmin⟩
        cases i with
        | zero =>
          rw [show (z :: r).get? 0 = some z from rfl] at hz'
          rw [← Option.some.inj hz'] at hget
          rw [hz] at hget
          exact absurd hget (by simp)
        | succ i' =>
          rw [List.get?_cons_succ] at hz'
          refine ⟨i', z', hz', hget, ?_⟩
          intro k z'' hk hz''
          exact hmin (k + 1) z'' (by omega) (by rw [List.get?_cons_succ]; exact hz'')

/-- C7: `mergePrefer` over the ordered source list is first-defined-wins
    per field — each merged field holds value `v` exactly when `v` comes
    from the earliest source where that field is defined — except the
    verified flag, which is the logical OR across all sources: it is
    true exactly when some source supplies a truthy flag. -/
theorem C7_merge_first_defined_wins :
    (∀ (xs : List ZkExtract) (v : String),
      (mergePrefer xs).canonicalHashHex = some v
        ↔ firstDefined (fun z => z.canonicalHashHex) xs v) ∧
    (∀ (xs : List ZkExtract) (v : String),
      (mergePrefer xs).zkPoseidonHashDec = some v
        ↔ firstDefined (fun z => z.zkPoseidonHashDec) xs v) ∧
    (∀ (xs : List ZkExtract) (v : Groth16Proof),
      (mergePrefer xs).zkProof = some v ↔ firstDefined (fun z => z.zkProof) xs v) ∧
    (∀ (xs : List ZkExtract) (v : List String),
      (mergePrefer xs).zkPublicInputs = some v
        ↔ firstDefined (fun z => z.zkPublicInputs) xs v) ∧
    (∀ (xs : List ZkExtract) (v : JVal),
      (mergePrefer xs).proofHints = some v ↔ firstDefined (fun z => z.proofHints) xs v) ∧
    (∀ (xs : List ZkExtract) (v : String),
      (mergePrefer xs).verifiedBy = some v ↔ firstDefined (fun z => z.verifiedBy) xs v) ∧
    (∀ xs : List ZkExtract,
      ((mergePrefer xs).verifiedFlag = some true ↔ ∃ z ∈ xs, z.verifiedFlag = some true)) := by
  refine ⟨fun xs v => pickFirst_eq_iff _ xs v, fun xs v => pickFirst_eq_iff _ xs v,
    fun xs v => pickFirst_eq_iff _ xs v, fun xs v => pickFirst_eq_iff _ xs v,
    fun xs v => pickFirst_eq_iff _ xs v, fun xs v => pickFirst_eq_iff _ xs v, fun xs => ?_⟩
  show some (xs.any (fun z => z.verifiedFlag.getD false)) = some true
    ↔ ∃ z ∈ xs, z.verifiedFlag = some true
  rw [Option.some.injEq, List.any_eq_true]
  constructor
  · intro ⟨z, hz, hflag⟩
    refine ⟨z, hz, ?_⟩
    cases hf : z.verifiedFlag with
    | none => rw [hf] at hflag; exact absurd hflag (by simp)
    | some b =>
      rw [hf] at hflag
      cases b with
      | false => exact absurd hflag (by simp [Option.getD])
      | true => rfl
  · intro ⟨z, hz, hflag⟩
    exact ⟨z, hz, by rw [hflag]; rfl⟩

/-- Lowercasing of an ASCII string (`String.prototype.toLowerCase` on
    the hex strings the pipeline compares). -/
def strToLower (s : String) : String :=
  String.mk (s.data.map toLowerCh)

inductive ZkAssurance where
  | proofPresent
  | verifiedFlag
  | sealMatch
  | none
deriving DecidableEq

/-- The decision part of `buildZkSeal` (lines 452-496), parameterized by
    the two awaited digests (`derivedCanonicalHashHex` line 440,
    `derivedPoseidonDec` line 455) — the tier rule does not depend on
    how they are computed. -/
structure SealDecision where
  canonicalHashHex : String
  zkPoseidonHashDec : String
  proofPresent : Bool
  byFlag : Bool
  byMatch : Bool
  zkOk : Bool
  zkAssurance : ZkAssurance

def buildZkSealDecision (merged ownerZk : ZkExtract)
    (derivedCanonicalHashHex derivedPoseidonDec : String) : SealDecision :=
  let canonicalHashHex := strToLower (merged.canonicalHashHex.getD derivedCanonicalHashHex)
  let zkPoseidonHashDec := merged.zkPoseidonHashDec.getD derivedPoseidonDec
  let vaultCanonicalOk : Option Bool :=
    ownerZk.canonicalHashHex.map (fun s => decide (strToLower s = canonicalHashHex))
  let vaultPoseidonOk : Option Bool :=
    ownerZk.zkPoseidonHashDec.map (fun s => decide (s = zkPoseidonHashDec))
  let proofPresent := merged.zkProof.isSome ||
    (match merged.zkPublicInputs with
     | some l => decide (0 < l.length)
     | Option.none => false)
  let byFlag := merged.verifiedFlag.getD false
  let byMatch := vaultCanonicalOk.getD false && vaultPoseidonOk.getD false
  let zkOk := proofPresent || byFlag || byMatch
  let tier := if proofPresent then ZkAssurance.proofPresent
    else if byFlag then ZkAssurance.verifiedFlag
    else if byMatch then ZkAssurance.sealMatch
    else ZkAssurance.none
  ⟨canonicalHashHex, zkPoseidonHashDec, proofPresent, byFlag, byMatch, zkOk, tier⟩

/-- C4: `buildZkSeal` assigns the assurance tier by strict precedence —
    `proof-present` exactly when a proof object or a non-empty
    public-input list is present (regardless of flag or match), else
    `verified-flag` exactly when the merged truthy verified flag is set,
    else `seal-match` exactly when both the vault canonical hash and the
    vault public input equal this artifact's values, else `none`; and
    `zkOk` is true iff the tier is not `none`.  The final conjunct pins
    the truthy-flag test (`truthyBool`) to exactly
    `true | "true" | 1 | "1"`. -/
theorem C4_seal_tier_precedence (merged ownerZk : ZkExtract)
    (dch dpd : String) :
    ((buildZkSealDecision merged ownerZk dch dpd).zkAssurance = ZkAssurance.proofPresent
      ↔ (merged.zkProof.isSome = true
          ∨ ∃ l, merged.zkPublicInputs = some l ∧ 0 < l.length)) ∧
    ((buildZkSealDecision merged ownerZk dch dpd).zkAssurance = ZkAssurance.verifiedFlag
      ↔ (¬(merged.zkProof.isSome = true
            ∨ ∃ l, merged.zkPublicInputs = some l ∧ 0 < l.length)
          ∧ merged.verifiedFlag = some true)) ∧
    ((buildZkSealDecision merged ownerZk dch dpd).zkAssurance = ZkAssurance.sealMatch
      ↔ (¬(merged.zkProof.isSome = true
            ∨ ∃ l, merged.zkPublicInputs = some l ∧ 0 < l.length)
          ∧ merged.verifiedFlag ≠ some true
          ∧ (∃ s, ownerZk.canonicalHashHex = some s
              ∧ strToLower s = (buildZkSealDecision merged ownerZk dch dpd).canonicalHashHex)
          ∧ (∃ s, ownerZk.zkPoseidonHashDec = some s
              ∧ s = (buildZkSealDecision merged ownerZk dch dpd).zkPoseidonHashDec))) ∧
    ((buildZkSealDecision merged ownerZk dch dpd).zkOk = true
      ↔ (buildZkSealDecision merged ownerZk dch dpd).zkAssurance ≠ ZkAssurance.none) ∧
    (∀ v : JVal, truthyBool (some v) = true
      ↔ (v = .bool true ∨ v = .str "true" ∨ v = .num 1 ∨ v = .str "1")) := by
  set d := buildZkSealDecision merged ownerZk dch dpd with hd
  have hpp : d.proofPresent = (merged.zkProof.isSome ||
      (match merged.zkPublicInputs with
       | some l => decide (0 < l.length)
       | Option.none => false)) := rfl
  have hflag : d.byFlag = merged.verifiedFlag.getD false := rfl
  have hmatch : d.byMatch =
      ((ownerZk.canonicalHashHex.map
          (fun s => decide (strToLower s = d.canonicalHashHex))).getD false &&
        (ownerZk.zkPoseidonHashDec.map
          (fun s => decide (s = d.zkPoseidonHashDec))).getD false) := rfl
  have htier : d.zkAssurance = (if d.proofPresent then ZkAssurance.proofPresent
      else if d.byFlag then ZkAssurance.verifiedFlag
      else if d.byMatch then ZkAssurance.sealMatch
      else ZkAssurance.none) := rfl
  have hok : d.zkOk = (d.proofPresent || d.byFlag || d.byMatch) := rfl
  have ppIff : d.proofPresent = true
      ↔ (merged.zkProof.isSome = true ∨ ∃ l, merged.zkPublicInputs = some l ∧ 0 < l.length) := by
    rw [hpp, Bool.or_eq_true]
    apply or_congr Iff.rfl
    cases hpi : merged.zkPublicInputs with
    | none => simp
    | some l => simp
  have flagIff : d.byFlag = true ↔ merged.verifiedFlag = some true := by
    rw [hflag]
    cases hf : merged.verifiedFlag with
    | none => simp
    | some b => cases b <;> simp
  have matchIff : d.byMatch = true
      ↔ ((∃ s, ownerZk.canonicalHashHex = some s ∧ strToLower s = d.canonicalHashHex)
        ∧ (∃ s, ownerZk.zkPoseidonHashDec = some s ∧ s = d.zkPoseidonHashDec)) := by
    rw [hmatch, Bool.and_eq_true]
    apply and_congr
    · cases hc : ownerZk.canonicalHashHex with
      | none => simp
      | some s => simp
    · cases hc : ownerZk.zkPoseidonHashDec with
      | none => simp
      | some s => simp
  have ppNeg : d.proofPresent = false
      ↔ ¬(merged.zkProof.isSome = true ∨ ∃ l, merged.zkPublicInputs = some l ∧ 0 < l.length) := by
    rw [← ppIff]
    cases d.proofPresent <;> simp
  have flagNeg : d.byFlag = false ↔ merged.verifiedFlag ≠ some true := by
    show d.byFlag = false ↔ ¬(merged.verifiedFlag = some true)
    rw [← flagIff]
    cases d.byFlag <;> simp
  have t1 : d.zkAssurance = ZkAssurance.proofPresent ↔ d.proofPresent = true := by
    rw [htier]
    cases hb1 : d.proofPresent
    · cases hb2 : d.byFlag
      · cases hb3 : d.byMatch <;> simp
      · simp
    · simp
  have t2 : d.zkAssurance = ZkAssurance.verifiedFlag
      ↔ (d.proofPresent = false ∧ d.byFlag = true) := by
    rw [htier]
    cases hb1 : d.proofPresent
    · cases hb2 : d.byFlag
      · cases hb3 : d.byMatch <;> simp
      · simp
    · simp
  have t3 : d.zkAssurance = ZkAssurance.sealMatch
      ↔ (d.proofPresent = false ∧ d.byFlag = false ∧ d.byMatch = true) := by
    rw [htier]
    cases hb1 : d.proofPresent
    · cases hb2 : d.byFlag
      · cases hb3 : d.byMatch <;> simp
      · simp
    · simp
  have t4 : d.zkAssurance = ZkAssurance.none
      ↔ (d.proofPresent = false ∧ d.byFlag = false ∧ d.byMatch = false) := by
    rw [htier]
    cases hb1 : d.proofPresent
    · cases hb2 : d.byFlag
      · cases hb3 : d.byMatch <;> simp
      · simp
    · simp
  refine ⟨t1.trans ppIff, t2.trans (and_congr ppNeg flagIff), ?_, ?_, ?_⟩
  · refine t3.trans ?_
    refine and_congr ppNeg (and_congr flagNeg matchIff)
  · rw [hok]
    rw [show (d.zkAssurance ≠ ZkAssurance.none)
      = ¬(d.proofPresent = false ∧ d.byFlag = false ∧ d.byMatch = false)
      from propext (not_congr t4)]
    cases hb1 : d.proofPresent
    · cases hb2 : d.byFlag
      · cases hb3 : d.byMatch <;> simp
      · simp
    · simp
  · intro v
    cases v <;> simp [truthyBool]

/- ────────────────────────────────────────────────────────────
   C10: `biDec` (PositionSigilMint.tsx line 55) and the monetary micro
   fields of `makePayload` (lines 727-787).
   ──────────────────────────────────────────────────────────── -/

/-- `biDec` (line 55): `v < 0n ? "0" : v.toString(10)`. -/
def biDec (v : Int) : String :=
  if v < 0 then "0" else String.mk (natDec v.toNat)

structure KaiMomentM where
  pulse : Int
  beat : Int
  stepIndex : Int

structure PositionEntry where
  side : String
  sharesMicro : Int
  avgPriceMicro : Int
  worstPriceMicro : Int
  feeMicro : Int
  totalCostMicro : Int
  openedAt : KaiMomentM
  venue : Option String
  marketDefinitionHash : Option String

structure PositionLock where
  lockedStakeMicro : Int
  vaultId : String
  lockId : String

structure PositionResolutionM where
  outcome : String
  resolvedPulse : Int

structure SettlementM where
  creditedMicro : Int
  debitedMicro : Int

structure PositionRecord where
  id : String
  marketId : String
  entry : PositionEntry
  lock : PositionLock
  resolution : Option PositionResolutionM
  settlement : Option SettlementM
  status : String

structure VaultOwner where
  userPhiKey : String
  kaiSignature : String

structure VaultRecord where
  owner : VaultOwner

def g16ToJVal (p : Groth16Proof) : JVal :=
  .obj [("pi_a", .arr (p.pi_a.map JVal.str)),
        ("pi_b", .arr (p.pi_b.map (fun row => JVal.arr (row.map JVal.str)))),
        ("pi_c", .arr (p.pi_c.map JVal.str))]

def optStr : Option String → JVal
  | some s => .str s
  | Option.none => .undefined

/-- `makePayload` (lines 727-787) as the JSON value ultimately
    serialized: member order is the literal's insertion order; the zk
    extras of `Object.assign` (lines 776-785) append in assignment
    order (`merged` is the `mergePrefer` result of lines 769-774; none
    of its keys collide with base keys).  `undefined`-valued members
    (`.undefined`) are the ones `JSON.stringify` drops. -/
def makePayload (pos : PositionRecord) (vault : VaultRecord) (merged : ZkExtract) : JVal :=
  .obj (
    [("v", .str "SM-POS-1"),
     ("kind", .str "position"),
     ("userPhiKey", .str vault.owner.userPhiKey),
     ("kaiSignature", .str vault.owner.kaiSignature),
     ("marketId", .str pos.marketId),
     ("positionId", .str pos.id),
     ("side", .str pos.entry.side),
     ("lockedStakeMicro", .str (biDec pos.lock.lockedStakeMicro)),
     ("sharesMicro", .str (biDec pos.entry.sharesMicro)),
     ("avgPriceMicro", .str (biDec pos.entry.avgPriceMicro)),
     ("worstPriceMicro", .str (biDec pos.entry.worstPriceMicro)),
     ("feeMicro", .str (biDec pos.entry.feeMicro)),
     ("totalCostMicro", .str (biDec pos.entry.totalCostMicro)),
     ("vaultId", .str pos.lock.vaultId),
     ("lockId", .str pos.lock.lockId),
     ("openedAt", .obj [("pulse", .num pos.entry.openedAt.pulse),
                        ("beat", .num pos.entry.openedAt.beat),
                        ("stepIndex", .num pos.entry.openedAt.stepIndex)]),
     ("venue", optStr pos.entry.venue),
     ("marketDefinitionHash", optStr pos.entry.marketDefinitionHash),
     ("resolution",
       match pos.resolution with
       | some r =>
         .obj [("outcome", .str r.outcome),
               ("resolvedPulse", .num r.resolvedPulse),
               ("status", .str pos.status),
               ("creditedMicro",
                 match pos.settlement with
                 | some st => .str (biDec st.creditedMicro)
                 | Option.none => .undefined),
               ("debitedMicro",
                 match pos.settlement with
                 | some st => .str (biDec st.debitedMicro)
                 | Option.none => .undefined)]
       | Option.none => .undefined),
     ("label", .str (String.mk (('P' :: 'o' :: 's' :: 'i' :: 't' :: 'i' :: 'o' :: 'n' :: ' ' :: [])
       ++ pos.entry.side.data))),
     ("note", .undefined)]
    ++ (match merged.zkProof with
        | some p => [("zkProof", g16ToJVal p)]
        | Option.none => [])
    ++ (match merged.zkPublicInputs with
        | some l => [("zkPublicInputs", JVal.arr (l.map JVal.str))]
        | Option.none => [])
    ++ (match merged.zkPoseidonHashDec with
        | some s => [("zkPoseidonHash", JVal.str s)]
        | Option.none => [])
    ++ (match merged.proofHints with
        | some v => [("proofHints", v)]
        | Option.none => [])
    ++ (if merged.verifiedFlag.getD false then [("zkOk", JVal.bool true)] else [])
    ++ (match merged.verifiedBy with
        | some s => [("verifiedBy", JVal.str s)]
        | Option.none => []))

/-- The member list behind `makePayload pos vault merged`. -/
def payloadMembers (pos : PositionRecord) (vault : VaultRecord) (merged : ZkExtract) :
    List (String × JVal) :=
  match makePayload pos vault merged with
  | .obj kvs => kvs
  | _ => []

theorem biDec_digits (v : Int) : (biDec v).data.all isDigitCh = true := by
  rw [biDec]
  split
  · decide
  · rw [List.all_eq_true]
    intro c hc
    exact natDec_digits v.toNat c hc

/-- C10: `biDec` clamps negative bigints to `"0"` and renders
    non-negative ones as their exact base-10 digit string (readback via
    `digitsToNat` recovers the value); consequently all six
    unconditional micro fields `makePayload` writes, and the two
    settlement micro fields when a resolution and settlement exist, are
    unsigned decimal digit strings. -/
theorem C10_micro_digit_strings (pos : PositionRecord) (vault : VaultRecord)
    (merged : ZkExtract) :
    (∀ v : Int, (v < 0 → biDec v = "0") ∧
      (0 ≤ v → digitsToNat (biDec v).data = v.toNat) ∧
      (biDec v).data.all isDigitCh = true) ∧
    (∀ k ∈ (["lockedStakeMicro", "sharesMicro", "avgPriceMicro", "worstPriceMicro",
        "feeMicro", "totalCostMicro"] : List String),
      ∃ s, objLookup (payloadMembers pos vault merged) k = some (.str s) ∧
        s.data.all isDigitCh = true) ∧
    (∀ r st, pos.resolution = some r → pos.settlement = some st →
      ∃ kvsR, objLookup (payloadMembers pos vault merged) "resolution" = some (.obj kvsR) ∧
        (∃ s, objLookup kvsR "creditedMicro" = some (.str s) ∧
          s.data.all isDigitCh = true) ∧
        (∃ s, objLookup kvsR "debitedMicro" = some (.str s) ∧
          s.data.all isDigitCh = true)) := by
  refine ⟨?_, ?_, ?_⟩
  · intro v
    refine ⟨?_, ?_, biDec_digits v⟩
    · intro hneg
      rw [biDec, if_pos hneg]
    · intro hnn
      rw [biDec, if_neg (by omega)]
      exact digitsToNat_natDec v.toNat
  · intro k hk
    have hlk : ∀ micro : Int,
        (∃ s, some (JVal.str (biDec micro)) = some (JVal.str s) ∧
          s.data.all isDigitCh = true) := fun micro => ⟨biDec micro, rfl, biDec_digits micro⟩
    fin_cases hk
    · exact hlk pos.lock.lockedStakeMicro
    · exact hlk pos.entry.sharesMicro
    · exact hlk pos.entry.avgPriceMicro
    · exact hlk pos.entry.worstPriceMicro
    · exact hlk pos.entry.feeMicro
    · exact hlk pos.entry.totalCostMicro
  · intro r st hr hst
    have hres : objLookup (payloadMembers pos vault merged) "resolution"
        = some (.obj [("outcome", .str r.outcome),
            ("resolvedPulse", .num r.resolvedPulse),
            ("status", .str pos.status),
            ("creditedMicro", .str (biDec st.creditedMicro)),
            ("debitedMicro", .str (biDec st.debitedMicro))]) := by
      rw [payloadMembers, makePayload, hr, hst]
      rfl
    exact ⟨_, hres, ⟨biDec st.creditedMicro, rfl, biDec_digits _⟩,
      ⟨biDec st.debitedMicro, rfl, biDec_digits _⟩⟩

/- ────────────────────────────────────────────────────────────
   C2 / C9: the mint pipeline (`mintPositionSigil`, lines 1178-1205,
   through `buildSvg`, lines 793-1154).  Formatting helpers first.
   Modelling conventions, stated once:
   * JS doubles are modelled as exact rationals of the source decimal
     literals; `Number.prototype.toFixed` is modelled by exact decimal
     rendering (`qToFixed`).  Every claim proved below is invariant
     under the exact digits such rendering produces.
   * trigonometric path sampling (sin/cos) has no exact rational form;
     path-producing functions render their exact parameters instead of
     the sampled points.  They remain deterministic functions of the
     same arguments as in the source, which is all the claims use.
   * constant markup between interpolations is kept as shortened
     literal separators; every input-dependent interpolation of the
     template is retained, in source order.
   ──────────────────────────────────────────────────────────── -/

def padZeros (n : Nat) (cs : List Char) : List Char :=
  List.replicate (n - cs.length) '0' ++ cs

/-- `esc` (lines 47-53): XML-escape of one character. -/
def escCh (c : Char) : List Char :=
  if c = '&' then '&' :: 'a' :: 'm' :: 'p' :: ';' :: []
  else if c = '<' then '&' :: 'l' :: 't' :: ';' :: []
  else if c = '>' then '&' :: 'g' :: 't' :: ';' :: []
  else if c = '"' then '&' :: 'q' :: 'u' :: 'o' :: 't' :: ';' :: []
  else if c = '\x27' then '&' :: 'a' :: 'p' :: 'o' :: 's' :: ';' :: []
  else [c]

def escStr (s : List Char) : List Char :=
  (s.map escCh).join

/-- An exact fraction (numerator/positive denominator), the value model
    for the JS doubles inside `buildSvg` (kernel-evaluable, unlike
    `ℚ`'s field operations). -/
structure Q2 where
  n : Int
  d : Nat
deriving DecidableEq

def q2Add (a b : Q2) : Q2 :=
  ⟨a.n * b.d + b.n * a.d, a.d * b.d⟩

def q2Mul (a b : Q2) : Q2 :=
  ⟨a.n * b.n, a.d * b.d⟩

def q2Lt (a b : Q2) : Bool :=
  a.n * b.d < b.n * a.d

/-- `clamp01` (line 56) over exact fractions. -/
def clamp01q (a : Q2) : Q2 :=
  if q2Lt a ⟨0, 1⟩ then ⟨0, 1⟩ else if q2Lt ⟨1, 1⟩ a then ⟨1, 1⟩ else a

/-- Exact-decimal stand-in for `Number.prototype.toFixed(digits)`. -/
def qToFixed (digits : Nat) (a : Q2) : List Char :=
  let scaled : Int := Int.fdiv (a.n * (10 ^ digits : Nat)) a.d
  let sign := if scaled < 0 then ['-'] else ([] : List Char)
  let n := scaled.natAbs
  if digits = 0 then sign ++ natDec n
  else sign ++ natDec (n / 10 ^ digits) ++ '.' :: padZeros digits (natDec (n % 10 ^ digits))

/-- `seed32FromHex` (lines 72-86): FNV-flavoured 32-bit string hash. -/
def seed32FromHex (cs : List Char) : Nat :=
  cs.foldl
    (fun h c =>
      let g := h ^^^ (c.toNat % 4294967296)
      (g + (g <<< 1) % 4294967296 + (g <<< 4) % 4294967296 + (g <<< 7) % 4294967296
        + (g <<< 8) % 4294967296 + (g <<< 24) % 4294967296) % 4294967296)
    2166136261

/-- `microDecToPhiDec6` (lines 195-207). -/
def microDecToPhiDec6 (s : List Char) : List Char :=
  if s ≠ [] ∧ s.all isDigitCh then
    let m := digitsToNat s
    natDec (m / 1000000) ++ '.' :: padZeros 6 (natDec (m % 1000000))
  else '0' :: '.' :: '0' :: '0' :: '0' :: '0' :: '0' :: '0' :: []

/-- `phiDec6ToNumber` (lines 209-216) over exact fractions. -/
def phiDec6ToQ (s : List Char) : Q2 :=
  let ip := s.takeWhile (fun c => c ≠ '.')
  let rest := s.dropWhile (fun c => c ≠ '.')
  match rest with
  | '.' :: fp =>
    if ip ≠ [] ∧ ip.all isDigitCh ∧ fp.length = 6 ∧ fp.all isDigitCh then
      ⟨digitsToNat ip * 1000000 + digitsToNat fp, 1000000⟩
    else ⟨0, 1⟩
  | _ => ⟨0, 1⟩

/-- `formatUsd2` (lines 218-221). -/
def formatUsd2 (usd : Q2) : List Char :=
  qToFixed 2 usd

/-- `detectUsdPerPhi` (lines 223-251): the ambient global
    `globalThis.__SM_USD_PER_PHI__` (accepted when a finite number
    `> 0`) takes precedence; the typed vault model carries none of the
    optional pricing fields, so the vault candidate scan yields null —
    the ambient global is exactly the dependence under study. -/
def detectUsdPerPhi (env : Option Q2) : Option Q2 :=
  match env with
  | some r => if q2Lt ⟨0, 1⟩ r then some r else none
  | Option.none => none

/-- `hexToBigIntDec` (lines 182-187). -/
def isHexCh (c : Char) : Bool :=
  isDigitCh c || (97 ≤ c.toNat && c.toNat ≤ 102) || (65 ≤ c.toNat && c.toNat ≤ 70)

def hexChVal (c : Char) : Nat :=
  if isDigitCh c then c.toNat - 48
  else if 97 ≤ c.toNat && c.toNat ≤ 102 then c.toNat - 87
  else if 65 ≤ c.toNat && c.toNat ≤ 70 then c.toNat - 55
  else 0

def hexToBigIntDec (cs : List Char) : List Char :=
  if cs ≠ [] ∧ cs.all isHexCh then
    natDec (cs.foldl (fun n c => 16 * n + hexChVal c) 0)
  else ['0']

/-- `hexToBits256` + `bitsToBinaryString` (lines 159-180). -/
def bitsToBinaryString (cs : List Char) : List Char :=
  let bits := (cs.map (fun c =>
    let n := if isDigitCh c then c.toNat - 48
      else if 97 ≤ c.toNat ∧ c.toNat ≤ 102 then c.toNat - 87 else 0
    [(n / 8) % 2, (n / 4) % 2, (n / 2) % 2, n % 2])).join
  let bits := if 256 < bits.length then bits.take 256
    else bits ++ List.replicate (256 - bits.length) 0
  bits.map (fun b => if b = 1 then '1' else '0')

def b64Table : List Char :=
  ('A' :: 'B' :: 'C' :: 'D' :: 'E' :: 'F' :: 'G' :: 'H' :: 'I' :: 'J' :: 'K' :: 'L' :: 'M' ::
   'N' :: 'O' :: 'P' :: 'Q' :: 'R' :: 'S' :: 'T' :: 'U' :: 'V' :: 'W' :: 'X' :: 'Y' :: 'Z' ::
   'a' :: 'b' :: 'c' :: 'd' :: 'e' :: 'f' :: 'g' :: 'h' :: 'i' :: 'j' :: 'k' :: 'l' :: 'm' ::
   'n' :: 'o' :: 'p' :: 'q' :: 'r' :: 's' :: 't' :: 'u' :: 'v' :: 'w' :: 'x' :: 'y' :: 'z' ::
   '0' :: '1' :: '2' :: '3' :: '4' :: '5' :: '6' :: '7' :: '8' :: '9' :: '+' :: '/' :: [])

def b64Ch (n : Nat) : Char :=
  b64Table.getD n 'A'

def utf8Bytes (c : Char) : List Nat :=
  let n := c.toNat
  if n < 128 then [n]
  else if n < 2048 then [192 + n / 64, 128 + n % 64]
  else if n < 65536 then [224 + n / 4096, 128 + (n / 64) % 64, 128 + n % 64]
  else [240 + n / 262144, 128 + (n / 4096) % 64, 128 + (n / 64) % 64, 128 + n % 64]

def b64Go : List Nat → List Char
  | a :: b :: c :: r =>
    b64Ch (a / 4) :: b64Ch ((a % 4) * 16 + b / 16) :: b64Ch ((b % 16) * 4 + c / 64)
      :: b64Ch (c % 64) :: b64Go r
  | [a, b] => [b64Ch (a / 4), b64Ch ((a % 4) * 16 + b / 16), b64Ch ((b % 16) * 4), '=']
  | [a] => [b64Ch (a / 4), b64Ch ((a % 4) * 16), '=', '=']
  | [] => []

/-- `b64Utf8` (lines 145-153): base64 of the UTF-8 bytes (`btoa` is
    available in the modelled browser environment). -/
def b64Utf8 (s : List Char) : List Char :=
  b64Go ((s.map utf8Bytes).join)

def hexDigits64 (n : Nat) : List Char :=
  (List.range 64).map (fun i => hexChar ((n / 16 ^ (63 - i)) % 16))

/-- Modelled from the spec: `sha256Hex(s)` (imported from `utils/ids`,
    not among the repository's files) returns a lowercase 64-hex-char
    digest of the input, a pure function of the bytes hashed.  The
    stand-in digest below keeps exactly that interface; no claim uses
    more than functionality (equal input ⇒ equal digest). -/
def sha256Hex (s : List Char) : List Char :=
  hexDigits64 (s.foldl (fun h c => (h * 131 + c.toNat + 17) % (2 ^ 256)) 7)

/-- Modelled from the spec: `derivePositionSigilId({positionId, ref})`
    (imported from `utils/ids`, not among the repository's files) —
    a stable identifier derived deterministically from the position id
    and the 24-hex-char prefix of the svg hash. -/
def derivePositionSigilId (positionId ref : List Char) : List Char :=
  ('s' :: 'i' :: 'g' :: ':' :: []) ++ positionId ++ ':' :: ref

def joinSep (sep : List Char) : List (List Char) → List Char
  | [] => []
  | [x] => x
  | x :: r => x ++ sep ++ joinSep sep r

def utf8Len (s : List Char) : Nat :=
  ((s.map (fun c => (utf8Bytes c).length)).foldl (fun a b => a + b) 0)

/-- The canonical core object of `buildZkSeal` (lines 414-436): absent
    optional payload fields fall back to `null` (`?? null`). -/
def canonObj (pos : PositionRecord) (vault : VaultRecord) : JVal :=
  .obj
    [("v", .str "SM-POS-1"),
     ("kind", .str "position"),
     ("userPhiKey", .str vault.owner.userPhiKey),
     ("kaiSignature", .str vault.owner.kaiSignature),
     ("marketId", .str pos.marketId),
     ("positionId", .str pos.id),
     ("side", .str pos.entry.side),
     ("lockedStakeMicro", .str (biDec pos.lock.lockedStakeMicro)),
     ("sharesMicro", .str (biDec pos.entry.sharesMicro)),
     ("avgPriceMicro", .str (biDec pos.entry.avgPriceMicro)),
     ("worstPriceMicro", .str (biDec pos.entry.worstPriceMicro)),
     ("feeMicro", .str (biDec pos.entry.feeMicro)),
     ("totalCostMicro", .str (biDec pos.entry.totalCostMicro)),
     ("vaultId", .str pos.lock.vaultId),
     ("lockId", .str pos.lock.lockId),
     ("openedAt", .obj [("pulse", .num pos.entry.openedAt.pulse),
                        ("beat", .num pos.entry.openedAt.beat),
                        ("stepIndex", .num pos.entry.openedAt.stepIndex)]),
     ("venue", match pos.entry.venue with | some v => .str v | Option.none => .null),
     ("marketDefinitionHash",
       match pos.entry.marketDefinitionHash with | some v => .str v | Option.none => .null),
     ("resolution",
       match pos.resolution with
       | some r =>
         .obj [("outcome", .str r.outcome),
               ("resolvedPulse", .num r.resolvedPulse),
               ("status", .str pos.status),
               ("creditedMicro",
                 match pos.settlement with
                 | some st => .str (biDec st.creditedMicro)
                 | Option.none => .undefined),
               ("debitedMicro",
                 match pos.settlement with
                 | some st => .str (biDec st.debitedMicro)
                 | Option.none => .undefined)]
       | Option.none => .null),
     ("label", .str (String.mk (('P' :: 'o' :: 's' :: 'i' :: 't' :: 'i' :: 'o' :: 'n' :: ' ' :: [])
       ++ pos.entry.side.data))),
     ("note", .null)]

def assuranceStr : ZkAssurance → List Char
  | .proofPresent => "proof-present".data
  | .verifiedFlag => "verified-flag".data
  | .sealMatch => "seal-match".data
  | .none => "none".data

def defaultHintsJ : JVal :=
  .obj [("scheme", .str "groth16-poseidon"),
        ("verify", .obj [("mode", .str "offline-or-api"),
                         ("statement", .str "canonicalHashHex"),
                         ("publicInput", .str "zkPoseidonHashDec")])]

/-- The full `ZkSeal` object returned by `buildZkSeal` (lines 477-495),
    as the JSON value `JSON.stringify(seal)` serializes. -/
def sealToJVal (sd : SealDecision) (merged ownerZk : ZkExtract)
    (canonicalBytesLen : Nat) : JVal :=
  .obj
    [("scheme", .str "groth16-poseidon"),
     ("canonicalHashAlg", .str "sha256"),
     ("canonicalHashHex", .str sd.canonicalHashHex),
     ("canonicalBytesLen", .num canonicalBytesLen),
     ("zkPoseidonHashDec", .str sd.zkPoseidonHashDec),
     ("zkOk", .bool sd.zkOk),
     ("zkAssurance", .str (String.mk (assuranceStr sd.zkAssurance))),
     ("zkProof", match merged.zkProof with | some p => g16ToJVal p | Option.none => .undefined),
     ("zkPublicInputs",
       match merged.zkPublicInputs with
       | some l => .arr (l.map JVal.str)
       | Option.none => .undefined),
     ("proofHints", match merged.proofHints with | some v => v | Option.none => defaultHintsJ),
     ("verifiedBy", optStr merged.verifiedBy),
     ("matches", .obj
       [("vaultCanonical",
         match ownerZk.canonicalHashHex with
         | some s => .bool (decide (strToLower s = sd.canonicalHashHex))
         | Option.none => .undefined),
        ("vaultPoseidon",
         match ownerZk.zkPoseidonHashDec with
         | some s => .bool (decide (s = sd.zkPoseidonHashDec))
         | Option.none => .undefined)])]

/- Geometry stand-ins (see the modelling conventions above): each is a
   deterministic function of exactly the arguments the source function
   reads. -/

/-- `lissajousPath` (lines 502-...): parameters `A,B,a,b,delta` are exact
    integer/state values of the seeded rng; the 260 sine samples are
    abstracted. -/
def lissajousPathM (seedHex : List Char) : List Char :=
  let s := seed32FromHex seedHex
  "LISS A=".data ++ natDec (360 + (xsIter 1 s * 140) / 4294967296)
    ++ " B=".data ++ natDec (340 + (xsIter 2 s * 160) / 4294967296)
    ++ " a=".data ++ natDec (3 + (xsIter 3 s * 5) / 4294967296)
    ++ " b=".data ++ natDec (4 + (xsIter 4 s * 6) / 4294967296)
    ++ " d=".data ++ natDec (xsIter 5 s)

def goldenSpiralPathM : List Char := "GOLDENSPIRAL".data

def hexRingPathM : List Char := "HEXRING".data

def flowerOfLifeM : List Char := "FLOWER".data

def crystalFacetsM (seedHex : List Char) : List (List Char) :=
  (List.range 6).map (fun i => "FACET ".data ++ natDec i ++ ' ' :: natDec (seed32FromHex seedHex))

def proofRingTicksM (hex : List Char) (r : Nat) : List Char :=
  "TICKS ".data ++ bitsToBinaryString hex ++ ' ' :: natDec r

/-- Start angle of chunk `idx` in degrees scaled by `10^14`
    (`-90 + idx * GOLDEN_ANGLE_DEG`, exact). -/
def arcStartScaled (idx : Nat) : Int :=
  -9000000000000000 + idx * 13750776405003785

def spanScaled (tone : Nat) : Int :=
  (if tone = 0 then 128 else if tone = 1 then 118 else 108) * 100000000000000

def arcPathDM (r : Nat) (idx tone : Nat) : List Char :=
  "ARC r=".data ++ natDec r ++ " s=".data ++ intDec (arcStartScaled idx)
    ++ " e=".data ++ intDec (arcStartScaled idx + spanScaled tone)

def spanQ (tone : Nat) : ℚ :=
  if tone = 0 then 128 else if tone = 1 then 118 else 108

def fontSizeStr (tone : Nat) : List Char :=
  if tone = 0 then "18.00".data else if tone = 1 then "13.60".data else "11.40".data

def opacityStr (tone : Nat) : List Char :=
  if tone = 0 then "0.780".data else if tone = 1 then "0.400".data else "0.220".data

def spacingStr (tone : Nat) : List Char :=
  if tone = 0 then "0.55".data else if tone = 1 then "0.38".data else "0.30".data

structure ArcText where
  id : List Char
  pathId : List Char
  d : List Char
  text : List Char
  fontSize : List Char
  opacity : List Char
  letterSpacing : List Char

def arcsForStrand (sigId : List Char) (tone : Nat) : Nat → List (List Char) → List ArcText
  | _, [] => []
  | idx, c :: r =>
    ⟨sigId ++ "-arctext-".data ++ natDec idx,
     sigId ++ "-arc-".data ++ natDec idx,
     arcPathDM (radiiLadder.getD (idx % 5) 0) idx tone,
     c, fontSizeStr tone, opacityStr tone, spacingStr tone⟩
      :: arcsForStrand sigId tone (idx + 1) r

/-- `buildGoldenArcs` (lines 687-721) with texts and ids. -/
def arcsGo (sigId : List Char) : Nat → List (List Char × Nat × List Char) → List ArcText
  | _, [] => []
  | idx, (label, tone, text) :: rest =>
    let chunks := chunkEvery (label ++ ':' :: ' ' :: text) (chunkSize tone)
    arcsForStrand sigId tone idx chunks ++ arcsGo sigId (idx + chunks.length) rest

def facetsSvgGo (seedHex : List Char) : Nat → List (List Char) → List (List Char)
  | _, [] => []
  | i, d :: rest =>
    let fs := seed32FromHex ("FACETSTYLE:".data ++ seedHex ++ ':' :: natDec i)
    let oFill := clamp01q (q2Add ⟨12, 1000⟩ (q2Mul ⟨xsIter 1 fs, 4294967296⟩ ⟨4, 100⟩))
    let oStroke := clamp01q (q2Add ⟨8, 100⟩ (q2Mul ⟨xsIter 2 fs, 4294967296⟩ ⟨14, 100⟩))
    let w := qToFixed 2 (q2Add ⟨9, 10⟩ (q2Mul ⟨xsIter 3 fs, 4294967296⟩ ⟨17, 10⟩))
    ("<path d=\"".data ++ d ++ "\" fill=\"rgba(255,255,255,".data ++ qToFixed 3 oFill
      ++ ")\" stroke=\"url(#prism)\" stroke-width=\"".data ++ w
      ++ "\" opacity=\"".data ++ qToFixed 3 oStroke ++ "\" />".data)
      :: facetsSvgGo seedHex (i + 1) rest

/-- `buildSvg` (lines 793-1154): every input-dependent interpolation of
    the template, in source order; constant markup shortened (see the
    modelling conventions above). -/
def svgTextM (pos : PositionRecord) (vault : VaultRecord) (merged ownerZk : ZkExtract)
    (env : Option Q2) (seedHex : List Char) : List Char :=
  let side := pos.entry.side.data
  let pulse := pos.entry.openedAt.pulse
  let beat := pos.entry.openedAt.beat
  let stepIndex := pos.entry.openedAt.stepIndex
  let ring := hexRingPathM
  let wave := lissajousPathM seedHex
  let spiral := goldenSpiralPathM
  let tone := if pos.entry.side = "YES" then "rgba(185,252,255,0.98)".data
    else "rgba(190,170,255,0.98)".data
  let styleSeed := seed32FromHex (seedHex ++ ':' :: side ++ ":STYLE".data)
  let rq : Nat → Q2 := fun k => ⟨xsIter k styleSeed, 4294967296⟩
  let ringOuterOpacity := clamp01q (q2Add ⟨5, 100⟩ (q2Mul (rq 1) ⟨10, 100⟩))
  let ringInnerOpacity := clamp01q (q2Add ⟨18, 100⟩ (q2Mul (rq 2) ⟨20, 100⟩))
  let waveGlowOpacity := clamp01q (q2Add ⟨8, 100⟩ (q2Mul (rq 3) ⟨12, 100⟩))
  let waveCoreOpacity := clamp01q (q2Add ⟨40, 100⟩ (q2Mul (rq 4) ⟨22, 100⟩))
  let spiralOpacity := clamp01q (q2Add ⟨10, 100⟩ (q2Mul (rq 5) ⟨16, 100⟩))
  let phiRingOpacity := clamp01q (q2Add ⟨14, 100⟩ (q2Mul (rq 6) ⟨18, 100⟩))
  let glassPlateOpacity := clamp01q (q2Add ⟨5, 100⟩ (q2Mul (rq 7) ⟨7, 100⟩))
  let hazeOpacity := clamp01q (q2Add ⟨4, 100⟩ (q2Mul (rq 8) ⟨7, 100⟩))
  let prismShift := rq 9
  let noiseSeed := seed32FromHex ("NOISE:".data ++ seedHex) % 999
  let facets := crystalFacetsM seedHex
  let sigId := "sm-pos-".data ++ intDec pulse ++ '-' :: intDec beat ++ '-' :: intDec stepIndex
  let descId := sigId ++ "-desc".data
  let cs := stableStringify (toJsonValue (canonObj pos vault))
  let canonicalBytesLen := utf8Len cs
  let dch := sha256Hex ("SM:POS:CANON:".data ++ cs)
  let chS := strToLower (merged.canonicalHashHex.getD (String.mk dch))
  let dpd := hexToBigIntDec (sha256Hex ("SM:POS:POSEIDON:".data ++ chS.data))
  let sd := buildZkSealDecision merged ownerZk (String.mk dch) (String.mk dpd)
  let title := "SigilMarkets Position — ".data ++ side ++ " — pulse ".data ++ intDec pulse
  let descTxt := "Position sigil with embedded proof + metadata.".data
  let okWord := if sd.zkOk then "VERIFIED".data else "SEALED".data
  let toneGhost := if pos.entry.side = "YES" then "rgba(185,252,255,0.10)".data
    else "rgba(190,170,255,0.10)".data
  let payloadJsonRaw := (stringifyVal (makePayload pos vault merged)).getD []
  let sealJsonRaw := (stringifyVal (sealToJVal sd merged ownerZk canonicalBytesLen)).getD []
  let binarySig := bitsToBinaryString sd.canonicalHashHex.data
  let woven := joinSep " • ".data
    ["v=SM-POS-1".data,
     "kind=position".data,
     "marketId=".data ++ pos.marketId.data,
     "positionId=".data ++ pos.id.data,
     "side=".data ++ side,
     "vaultId=".data ++ pos.lock.vaultId.data,
     "lockId=".data ++ pos.lock.lockId.data,
     "pulse=".data ++ intDec pulse,
     "beat=".data ++ intDec beat,
     "stepIndex=".data ++ intDec stepIndex,
     "userPhiKey=".data ++ vault.owner.userPhiKey.data,
     "kaiSignature=".data ++ vault.owner.kaiSignature.data,
     "canonicalHashHex=".data ++ sd.canonicalHashHex.data,
     "zkPoseidonHashDec=".data ++ sd.zkPoseidonHashDec.data,
     "scheme=groth16-poseidon".data,
     "zkOk=".data ++ (if sd.zkOk then "true".data else "false".data)]
  let stakePhiDec6 := microDecToPhiDec6 (biDec pos.lock.lockedStakeMicro).data
  let usdPerPhi := detectUsdPerPhi env
  let stakePhiNum := phiDec6ToQ stakePhiDec6
  let stakeUsd2 := match usdPerPhi with
    | some rr => formatUsd2 (q2Mul stakePhiNum rr)
    | Option.none => "—".data
  let summary := joinSep " | ".data
    ["market=".data ++ pos.marketId.data,
     "position=".data ++ pos.id.data,
     "side=".data ++ side,
     "wagerPhi=".data ++ stakePhiDec6,
     "wagerUsd=".data ++ stakeUsd2,
     "pulse=".data ++ intDec pulse,
     "beat=".data ++ intDec beat,
     "step=".data ++ intDec stepIndex,
     "zk=".data ++ okWord]
  let summaryB64 := b64Utf8 summary
  let openedShort := "p=".data ++ intDec pulse ++ " b=".data ++ intDec beat
    ++ " s=".data ++ intDec stepIndex
  let resolutionShort := match pos.resolution with
    | some rr => "resolved=".data ++ pos.status.data ++ " outcome=".data ++ rr.outcome.data
        ++ " atPulse=".data ++ intDec rr.resolvedPulse
    | Option.none => "resolved=(unresolved)".data
  let usdLabel := match usdPerPhi with
    | some rr => "USD@".data ++ qToFixed 4 rr
    | Option.none => "USD@(unknown)".data
  let fullStrandJson := stableStringify (toJsonValue (.obj
    [("payload", makePayload pos vault merged),
     ("seal", sealToJVal sd merged ownerZk canonicalBytesLen),
     ("zkProof", match merged.zkProof with | some p => g16ToJVal p | Option.none => .null),
     ("zkPublicInputs",
       match merged.zkPublicInputs with
       | some l => .arr (l.map JVal.str)
       | Option.none => .null),
     ("proofHints", match merged.proofHints with | some v => v | Option.none => defaultHintsJ)]))
  let fullStrandB64 := b64Utf8 fullStrandJson
  let strands : List (List Char × Nat × List Char) :=
    [("WAGER".data, 0,
      "Φ ".data ++ stakePhiDec6 ++ " • ".data ++ usdLabel ++ ' ' ::
        (if stakeUsd2 = "—".data then "—".data else '$' :: stakeUsd2)
        ++ " • feeMicro=".data ++ (biDec pos.entry.feeMicro).data),
     ("POSITION".data, 1,
      "marketId=".data ++ pos.marketId.data ++ " • positionId=".data ++ pos.id.data
        ++ " • side=".data ++ side ++ " • ".data ++ openedShort),
     ("VALUE".data, 1,
      "sharesMicro=".data ++ (biDec pos.entry.sharesMicro).data
        ++ " • avgPriceMicro=".data ++ (biDec pos.entry.avgPriceMicro).data
        ++ " • worstPriceMicro=".data ++ (biDec pos.entry.worstPriceMicro).data
        ++ " • totalCostMicro=".data ++ (biDec pos.entry.totalCostMicro).data
        ++ " • ".data ++ resolutionShort),
     ("IDENTITY".data, 1,
      "userPhiKey=".data ++ vault.owner.userPhiKey.data
        ++ " • kaiSignature=".data ++ vault.owner.kaiSignature.data),
     ("ZK".data, 0,
      okWord ++ " • scheme=groth16-poseidon • assurance=".data ++ assuranceStr sd.zkAssurance
        ++ (match merged.verifiedBy with
            | some vb => " • verifier=".data ++ vb.data
            | Option.none => [])),
     ("HASH".data, 2,
      "canonicalHashHex=".data ++ sd.canonicalHashHex.data
        ++ " • poseidonDec=".data ++ sd.zkPoseidonHashDec.data),
     ("DATASTRAND_B64".data, 2,
      if 0 < fullStrandB64.length then fullStrandB64 else "(b64 unavailable)".data)]
  let arcTexts := arcsGo sigId 0 strands
  let arcDefs := joinSep ['\x0a'] (arcTexts.map (fun a =>
    "<path id=\"".data ++ escStr a.pathId ++ "\" d=\"".data ++ a.d ++ "\" fill=\"none\"/>".data))
  let arcTextSvg := joinSep ['\x0a'] (arcTexts.map (fun a =>
    "<text id=\"".data ++ escStr a.id ++ "\" font-size=\"".data ++ a.fontSize
      ++ "\" opacity=\"".data ++ a.opacity ++ "\" letter-spacing=\"".data ++ a.letterSpacing
      ++ "\"><textPath href=\"#".data ++ escStr a.pathId ++ "\">".data ++ escStr a.text
      ++ "</textPath></text>".data))
  let sigPathIdOuter := sigId ++ "-sig-path-outer".data
  let sigPathIdInner := sigId ++ "-sig-path-inner".data
  let proofRing := proofRingTicksM sd.canonicalHashHex.data 482
  let facetsSvg := joinSep ['\x0a'] (facetsSvgGo seedHex 0 facets)
  let flowerSvg := flowerOfLifeM
  let headerRight := match merged.verifiedBy with
    | some vb => " | verifier=".data ++ vb.data
    | Option.none => []
  let headerLine := escStr ("SM-POS-1 | ".data ++ okWord ++ " | zk=groth16-poseidon".data
    ++ headerRight ++ " | wager Φ ".data ++ stakePhiDec6
    ++ (if stakeUsd2 = "—".data then [] else " | $".data ++ stakeUsd2))
  "<?xml version=\"1.0\" encoding=\"UTF-8\"?>\x0a<svg id=\"".data ++ escStr sigId
  ++ "\" aria-label=\"".data ++ escStr title
  ++ "\" aria-describedby=\"".data ++ escStr descId
  ++ "\" data-kind=\"sigilmarkets-position\" data-v=\"SM-POS-1\" data-market-id=\"".data
    ++ escStr pos.marketId.data
  ++ "\" data-position-id=\"".data ++ escStr pos.id.data
  ++ "\" data-side=\"".data ++ escStr side
  ++ "\" data-vault-id=\"".data ++ escStr pos.lock.vaultId.data
  ++ "\" data-lock-id=\"".data ++ escStr pos.lock.lockId.data
  ++ "\" data-user-phikey=\"".data ++ escStr vault.owner.userPhiKey.data
  ++ "\" data-kai-signature=\"".data ++ escStr vault.owner.kaiSignature.data
  ++ "\" data-pulse=\"".data ++ escStr (intDec pulse)
  ++ "\" data-beat=\"".data ++ escStr (intDec beat)
  ++ "\" data-step-index=\"".data ++ escStr (intDec stepIndex)
  ++ "\" data-summary-b64=\"".data ++ escStr summaryB64
  ++ "\" data-payload-hash=\"".data ++ escStr sd.canonicalHashHex.data
  ++ "\" data-zk-scheme=\"groth16-poseidon\" data-zk-poseidon-hash=\"".data
    ++ escStr sd.zkPoseidonHashDec.data
  ++ "\" data-zk-ok=\"".data ++ (if sd.zkOk then "true".data else "false".data)
  ++ "\" data-zk-assurance=\"".data ++ escStr (assuranceStr sd.zkAssurance)
  ++ "\" data-wager-phi=\"".data ++ escStr stakePhiDec6
  ++ "\" data-wager-usd=\"".data ++ escStr stakeUsd2
  ++ "\" ".data
  ++ (match usdPerPhi with
      | some rr => "data-usd-per-phi=\"".data ++ escStr (qToFixed 6 rr) ++ "\" ".data
      | Option.none => [])
  ++ (match merged.verifiedBy with
      | some vb => "data-zk-verified-by=\"".data ++ escStr vb.data ++ "\" ".data
      | Option.none => [])
  ++ ">\x0a<title>".data ++ escStr title
  ++ "</title>\x0a<desc id=\"".data ++ escStr descId ++ "\">".data ++ escStr descTxt
  ++ "</desc>\x0a<metadata>".data ++ safeCdata payloadJsonRaw
  ++ "</metadata>\x0a<metadata id=\"sm-zk\">".data ++ safeCdata sealJsonRaw
  ++ "</metadata>\x0a<defs>\x0a<path id=\"".data ++ escStr sigPathIdOuter
  ++ "\" d=\"M 500.00 40.00 a 460.00 460.00 0 1 1 0 920.00 a 460.00 460.00 0 1 1 0 -920.00\" fill=\"none\"/>\x0a<path id=\"".data
    ++ escStr sigPathIdInner
  ++ "\" d=\"M 500.00 90.00 a 410.00 410.00 0 1 1 0 820.00 a 410.00 410.00 0 1 1 0 -820.00\" fill=\"none\"/>\x0a<path id=\"hexRing\" d=\"".data
    ++ ring
  ++ "\"/>\x0a".data ++ arcDefs
  ++ "\x0a<prism stops=\"".data ++ qToFixed 2 (q2Add ⟨16, 1⟩ (q2Mul prismShift ⟨10, 1⟩))
    ++ ' ' :: qToFixed 2 (q2Add ⟨44, 1⟩ (q2Mul prismShift ⟨12, 1⟩))
    ++ ' ' :: qToFixed 2 (q2Add ⟨72, 1⟩ (q2Mul prismShift ⟨8, 1⟩))
  ++ "\"/><edge tone=\"".data ++ tone
  ++ "\"/><aurora tone=\"".data ++ toneGhost
  ++ "\"/><frost seed=\"".data ++ natDec noiseSeed
  ++ "\"/></defs>\x0a<header>".data ++ headerLine
  ++ "</header>\x0a".data ++ arcTextSvg
  ++ "\x0a<binary tone=\"".data ++ tone ++ "\" path=\"#".data ++ escStr sigPathIdOuter
    ++ "\">".data ++ escStr binarySig
  ++ "</binary>\x0a<woven path=\"#".data ++ escStr sigPathIdInner ++ "\">".data ++ escStr woven
  ++ "</woven>\x0a<ticks>".data ++ proofRing
  ++ "</ticks>\x0a<plate o1=\"".data ++ qToFixed 3 (q2Mul glassPlateOpacity ⟨92, 100⟩)
    ++ "\" o2=\"".data ++ qToFixed 3 glassPlateOpacity
    ++ "\" o3=\"".data ++ qToFixed 3 hazeOpacity
  ++ "\"/>\x0a<rings d=\"".data ++ ring
    ++ "\" o1=\"".data ++ qToFixed 3 ringOuterOpacity
    ++ "\" o2=\"".data ++ qToFixed 3 ringInnerOpacity
    ++ "\" phiR=\"267.02\" o3=\"".data ++ qToFixed 3 phiRingOpacity
  ++ "\"/>\x0a<flower>".data ++ flowerSvg
  ++ "</flower>\x0a<facets>".data ++ facetsSvg
  ++ "</facets>\x0a<spiral d=\"".data ++ spiral ++ "\" o=\"".data ++ qToFixed 3 spiralOpacity
  ++ "\"/>\x0a<wave d=\"".data ++ wave ++ "\" o1=\"".data ++ qToFixed 3 waveGlowOpacity
    ++ "\" o2=\"".data ++ qToFixed 3 waveCoreOpacity
  ++ "\"/>\x0a</svg>".data

/-- `MintPositionSigilResult` (lines 1174-1176): a tagged union — the
    failure branch carries a single error string and no artifact
    fields; the success branch carries the complete artifact
    (sigilId, svgHash, url, payload) plus the SVG text. -/
inductive MintResult where
  | ok (sigilId svgHash url : List Char) (payload : JVal) (svgText : List Char)
  | err (error : List Char)

def svgTextOf : MintResult → List Char
  | .ok _ _ _ _ t => t
  | .err e => e

/-- `mintPositionSigil` (lines 1178-1205).  `exc` is the exception
    oracle of the try/catch: `some m` means some awaited step threw
    (`m` the `Error.message`, `none` inside for a non-`Error` value);
    the catch (lines 1201-1204) returns only `{ok:false, error}`.
    `urlToken` is the fresh `URL.createObjectURL` result — the one
    nondeterministic component of a successful run; `env` the ambient
    `globalThis.__SM_USD_PER_PHI__`. -/
def mintPositionSigilM (pos : PositionRecord) (vault : VaultRecord)
    (merged ownerZk : ZkExtract) (env : Option Q2) (urlToken : List Char)
    (exc : Option (Option String)) : MintResult :=
  match exc with
  | some m => .err (match m with | some msg => msg.data | Option.none => "mint failed".data)
  | Option.none =>
    let payload := makePayload pos vault merged
    let seedHex := sha256Hex ("SM:POS:SEED:".data ++ pos.id.data ++ ':' :: pos.lock.lockId.data
      ++ ':' :: vault.owner.userPhiKey.data)
    let svgText := svgTextM pos vault merged ownerZk env seedHex
    let svgHashHex := sha256Hex svgText
    let sigilId := derivePositionSigilId pos.id.data (svgHashHex.take 24)
    .ok sigilId svgHashHex urlToken payload svgText

/-- C2 (amended): with the ambient rate `globalThis.__SM_USD_PER_PHI__`
    fixed, two runs of `mintPositionSigil` on identical position and
    vault inputs produce identical SVG bytes, identical content hash
    (`svgHash = sha256(svgText)`) and identical stable identifier
    (`sigilId` derived from positionId and the hash prefix), even
    though the object URL (the only nondeterministic output component)
    differs between runs. -/
theorem C2_determinism_amended (pos : PositionRecord) (vault : VaultRecord)
    (merged ownerZk : ZkExtract) (env : Option Q2) (u1 u2 : List Char) :
    ∃ sid h p t,
      mintPositionSigilM pos vault merged ownerZk env u1 none = .ok sid h u1 p t ∧
      mintPositionSigilM pos vault merged ownerZk env u2 none = .ok sid h u2 p t ∧
      h = sha256Hex t ∧
      sid = derivePositionSigilId pos.id.data (h.take 24) :=
  ⟨_, _, _, _, rfl, rfl, rfl, rfl⟩

def zkEmptyX : ZkExtract :=
  ⟨Option.none, Option.none, Option.none, Option.none, Option.none, Option.none, Option.none⟩

def cePos : PositionRecord :=
  ⟨"p1", "m1", ⟨"YES", 1, 1, 1, 1, 1, ⟨1, 1, 1⟩, Option.none, Option.none⟩,
    ⟨1, "v1", "l1"⟩, Option.none, Option.none, "open"⟩

def ceVault : VaultRecord := ⟨⟨"u1", "k1"⟩⟩

/-- C2 counterexample: `mintPositionSigil` reads the ambient mutable
    global `__SM_USD_PER_PHI__` (`detectUsdPerPhi`, lines 223-251), so
    two runs on identical position and vault inputs do NOT always
    produce identical SVG bytes: with the global unset versus set to 2,
    the produced texts differ (`data-wager-usd`, the wager strand and
    the `data-usd-per-phi` attribute change). -/
theorem C2_counterexample :
    svgTextOf (mintPositionSigilM cePos ceVault zkEmptyX zkEmptyX none "blob:u".data none)
      ≠ svgTextOf (mintPositionSigilM cePos ceVault zkEmptyX zkEmptyX (some ⟨2, 1⟩)
          "blob:u".data none) := by
  intro h
  exact absurd h (by decide)

/-- C9: `mintPositionSigil` never throws and never returns a partial
    result: when some awaited step throws, the catch returns exactly
    `{ok: false, error}` with the single message string and no
    artifact fields (the `err` constructor carries nothing else); when
    nothing throws it returns the fully populated artifact — sigilId,
    svgHash, url, payload — plus the complete SVG text, with
    `svgHash = sha256(svgText)` and `sigilId` derived from it. -/
theorem C9_mint_result_shape (pos : PositionRecord) (vault : VaultRecord)
    (merged ownerZk : ZkExtract) (env : Option Q2) (u : List Char)
    (exc : Option (Option String)) :
    (∀ m, exc = some m →
      mintPositionSigilM pos vault merged ownerZk env u exc
        = .err (match m with | some s => s.data | Option.none => "mint failed".data)) ∧
    (exc = none →
      ∃ sid h p t,
        mintPositionSigilM pos vault merged ownerZk env u exc = .ok sid h u p t ∧
        h = sha256Hex t ∧
        sid = derivePositionSigilId pos.id.data (h.take 24)) := by
  constructor
  · intro m hm
    rw [hm]
    rfl
  · intro hm
    rw [hm]
    exact ⟨_, _, _, _, rfl, rfl, rfl⟩

end Verahai
